import Mathlib

/-!
# Verification of the HTML distillation / URL extraction core

A shallow embedding, in Lean 4, of the load-bearing logic of the
`url-to-markdown-and-extract-all-url` service:

* `app/services/url_extractor.py`   (requests-based URL extraction)
* `app/services/selenium_extractor.py` (browser-rendered URL extraction)
* `app/services/markdown_converter.py` (sanitizer, main-content locator,
  markdown renderer, metadata extractor)
* `app/services/text_extractor.py`  (text metadata extraction; its
  `_extract_headings` / `_extract_title` duplicate `markdown_converter.py`)

The DOM produced by BeautifulSoup is modelled by the inductive type `Node`
(a "soup" is a `List Node`, the forest of top-level parse roots).  The
functions of `urllib.parse` (`urlparse`, `urljoin`) and the relevant pieces
of `bs4` (`find_all`, `get_text`, tag equality) are external library
primitives of the Python code; they are modelled here faithfully from their
CPython / bs4 sources, with these documented simplifications:

* `urlparse` is modelled with `urlsplit` field structure (the rarely used
  `params` component is not split off the path);
* regular expressions appearing in the source are each of the shape
  "case-insensitive containment" or an explicit token scanner, and are
  modelled as such;
* Python's `set` has unspecified iteration order; `list(set(xs))` is
  modelled as first-occurrence deduplication (no claim here depends on the
  order, only on membership, length and duplicate-freeness);
* bs4 `Tag.__bool__` always returns `True` ("A tag is non-None even if it
  has no contents"), so `if tag:` tests in the source are modelled as
  `Option.isSome` of the corresponding `find`;
* bs4 `Tag.__eq__` is structural equality of tag name, attributes and
  contents, modelled by `nodeBEq`.
-/

/-! ## DOM model -/

/-- A DOM node: a text run, or an element with a tag name, an attribute
list and an ordered list of children.  This is the in-memory tree built by
`BeautifulSoup(html, "html.parser")`. -/
inductive Node where
  | text (s : String) : Node
  | elem (tag : String) (attrs : List (String × String)) (children : List Node) : Node

-- Structural equality of nodes, modelling `bs4.element.Tag.__eq__`
-- (equal tag name, equal attributes, recursively equal contents).
mutual
def nodeBEq : Node → Node → Bool
  | .text s, .text t => s == t
  | .elem t1 a1 c1, .elem t2 a2 c2 => t1 == t2 && a1 == a2 && forestBEq c1 c2
  | _, _ => false

def forestBEq : List Node → List Node → Bool
  | [], [] => true
  | x :: xs, y :: ys => nodeBEq x y && forestBEq xs ys
  | _, _ => false
end

-- `get_text()` of bs4: concatenation of every text run in the subtree,
-- in document order.
mutual
def nodeText : Node → String
  | .text s => s
  | .elem _ _ cs => forestText cs

def forestText : List Node → String
  | [] => ""
  | n :: ns => nodeText n ++ forestText ns
end

-- All nodes of a subtree in pre-order (the node itself first, then its
-- descendants); the traversal order used by bs4 `find_all`.
mutual
def nodeList : Node → List Node
  | .text s => [.text s]
  | .elem t a cs => .elem t a cs :: forestList cs

def forestList : List Node → List Node
  | [] => []
  | n :: ns => nodeList n ++ forestList ns
end

/-- `soup.find_all(...)`: every node of the forest matching the predicate,
in document order. -/
def findAllForest (p : Node → Bool) (soup : List Node) : List Node :=
  (forestList soup).filter p

/-- Strict descendants of a node in document order. -/
def descendants : Node → List Node
  | .text _ => []
  | .elem _ _ cs => forestList cs

/-- `tag.find_all(...)`: matching strict descendants, in document order. -/
def findAllIn (n : Node) (p : Node → Bool) : List Node :=
  (descendants n).filter p

/-- `tag.find(...)`: the first matching strict descendant. -/
def findIn (n : Node) (p : Node → Bool) : Option Node :=
  (findAllIn n p).head?

/-- Attribute lookup (attribute names are unique keys). -/
def attrLookup (attrs : List (String × String)) (key : String) : Option String :=
  (attrs.find? (fun kv => kv.1 = key)).map (fun kv => kv.2)

/-- Attribute lookup on a node; text runs have no attributes. -/
def nodeAttr : Node → String → Option String
  | .text _, _ => none
  | .elem _ a _, key => attrLookup a key

/-- Does the node have the given tag name? (`soup.find_all(name)` matches
elements only.) -/
def isTagNode (t : String) : Node → Bool
  | .elem tg _ _ => tg = t
  | .text _ => false

/-! ## String helpers (Python `str` methods)

All of these work on the underlying character lists, so that every
definition evaluates inside the kernel on concrete inputs. -/

/-- Python `s.startswith(pre)`. -/
def strStartsWith (s pre : String) : Bool :=
  pre.toList.isPrefixOf s.toList

/-- Python `s.strip()`: remove leading and trailing whitespace. -/
def pyStripL (l : List Char) : List Char :=
  (((l.dropWhile Char.isWhitespace).reverse).dropWhile Char.isWhitespace).reverse

def pyStrip (s : String) : String :=
  String.mk (pyStripL s.toList)

/-- Python `s.lower()`. -/
def pyLower (s : String) : String :=
  String.mk (s.toList.map Char.toLower)

/-- Split a character list at every character satisfying `p`
(`acc` holds the reversed current chunk). -/
def splitOnPredAux (p : Char → Bool) : List Char → List Char → List (List Char)
  | [], acc => [acc.reverse]
  | c :: cs, acc =>
    if p c then acc.reverse :: splitOnPredAux p cs []
    else splitOnPredAux p cs (c :: acc)

/-- Python `s.split(sep)` for a one-character separator. -/
def splitChar (sep : Char) (s : String) : List String :=
  (splitOnPredAux (fun c => c = sep) s.toList []).map String.mk

/-- Python `s.split()`-style whitespace tokens (bs4 splits the `class`
attribute value this way); empty chunks are discarded. -/
def whitespaceTokens (s : String) : List String :=
  ((splitOnPredAux Char.isWhitespace s.toList []).map String.mk).filter (fun t => t ≠ "")

/-- The whitespace-separated class tokens of an attribute list (bs4 parses
the `class` attribute as a multi-valued list). -/
def classTokens (attrs : List (String × String)) : List String :=
  match attrLookup attrs "class" with
  | none => []
  | some v => whitespaceTokens v

/-- Python `s.endswith(suf)`. -/
def strEndsWith (s suf : String) : Bool :=
  suf.toList.isSuffixOf s.toList

/-- Python `sep.join(parts)`. -/
def strJoin (sep : String) : List String → String
  | [] => ""
  | [x] => x
  | x :: xs => x ++ sep ++ strJoin sep xs

/-- Case-insensitive containment: the meaning of matching a string against
the regular expression `.*PAT.*` with `re.IGNORECASE` (every pattern in the
source's removal lists has this shape). -/
def strContainsCI (s pat : String) : Bool :=
  let sl := (s.toList).map Char.toLower
  let pl := (pat.toList).map Char.toLower
  (List.range (sl.length + 1)).any (fun i => pl.isPrefixOf (sl.drop i))

/-- True when the string contains no newline character. -/
def lineFree (s : String) : Bool :=
  !(s.toList.contains '\n')

/-- Number of lines in the Python `str.splitlines` sense (restricted to
newline separators): a trailing newline does not open a new line. -/
def countLinesL (l : List Char) : Nat :=
  if l = [] then 0
  else l.count '\n' + (if l.getLast? = some '\n' then 0 else 1)

def countLines (s : String) : Nat :=
  countLinesL s.toList

/-! ## Model of `urllib.parse` (`urlsplit` / `urlunsplit` / `urljoin`)

Translated from CPython `Lib/urllib/parse.py`; the `params` component is
not modelled (see the header comment). -/

structure ParsedUrl where
  scheme : String
  netloc : String
  path : String
  query : String
  fragment : String
deriving DecidableEq

/-- Split a character list at the first occurrence of `c`, if any. -/
def splitAtChar? (target : Char) : List Char → Option (List Char × List Char)
  | [] => none
  | c :: cs =>
    if c = target then some ([], cs)
    else
      match splitAtChar? target cs with
      | some (pre, post) => some (c :: pre, post)
      | none => none

/-- CPython `scheme_chars`: letters, digits, `+`, `-`, `.`. -/
def isSchemeChar (c : Char) : Bool :=
  c.isAlpha || c.isDigit || c = '+' || c = '-' || c = '.'

/-- A character terminating the netloc component (`/`, `?` or `#`). -/
def netlocEnd (c : Char) : Bool :=
  c = '/' || c = '?' || c = '#'

/-- Scheme extraction of `urlsplit`: text before the first `:` counts as a
scheme when it is non-empty, starts with a letter and consists of scheme
characters; the scheme is lower-cased. -/
def splitScheme (cs : List Char) : List Char × List Char :=
  match splitAtChar? ':' cs with
  | some (pre, post) =>
    if pre ≠ [] ∧ (pre.headD ' ').isAlpha ∧ pre.all isSchemeChar then (pre, post)
    else ([], cs)
  | none => ([], cs)

/-- Netloc extraction of `urlsplit`: after a leading `//`, up to the first
`/`, `?` or `#`. -/
def splitNetloc (cs : List Char) : List Char × List Char :=
  match cs with
  | '/' :: '/' :: r =>
    (r.takeWhile (fun c => !(netlocEnd c)), r.dropWhile (fun c => !(netlocEnd c)))
  | _ => ([], cs)

/-- Split at the first occurrence of `c`; when absent, everything is the
first component. -/
def splitTail (c : Char) (cs : List Char) : List Char × List Char :=
  match splitAtChar? c cs with
  | some (pre, post) => (pre, post)
  | none => (cs, [])

/-- `urllib.parse.urlparse` (with `urlsplit` field structure). -/
def urlparse (url : String) : ParsedUrl :=
  let p1 := splitScheme url.toList
  let p2 := splitNetloc p1.2
  let p3 := splitTail '#' p2.2
  let p4 := splitTail '?' p3.1
  ⟨String.mk (p1.1.map Char.toLower), String.mk p2.1,
   String.mk p4.1, String.mk p4.2, String.mk p3.2⟩

/-- `urllib.parse.urlunsplit`. -/
def urlunsplit (p : ParsedUrl) : String :=
  let u0 := p.path
  let u1 :=
    if p.netloc ≠ "" ∨ strStartsWith u0 "//" then
      "//" ++ p.netloc ++ (if u0 ≠ "" ∧ ¬ strStartsWith u0 "/" then "/" ++ u0 else u0)
    else u0
  let u2 := if p.scheme ≠ "" then p.scheme ++ ":" ++ u1 else u1
  let u3 := if p.query ≠ "" then u2 ++ "?" ++ p.query else u2
  if p.fragment ≠ "" then u3 ++ "#" ++ p.fragment else u3

/-- CPython `uses_relative`. -/
def uses_relative : List String :=
  ["", "ftp", "http", "gopher", "nntp", "imap", "wais", "file", "https", "shttp",
   "mms", "prospero", "rtsp", "rtspu", "sftp", "svn", "svn+ssh", "ws", "wss"]

/-- CPython `uses_netloc`. -/
def uses_netloc : List String :=
  ["", "ftp", "http", "gopher", "nntp", "telnet", "imap", "wais", "file", "mms",
   "https", "shttp", "snews", "prospero", "rtsp", "rtspu", "rsync", "svn",
   "svn+ssh", "sftp", "nfs", "git", "git+ssh", "ws", "wss", "itms-services"]

/-- Middle elements of a segment list that are empty strings are dropped
(CPython: `segments[1:-1] = filter(None, segments[1:-1])`). -/
def stripMidAux : List String → List String
  | [] => []
  | [y] => [y]
  | y :: ys => if y = "" then stripMidAux ys else y :: stripMidAux ys

def stripEmptyMiddle : List String → List String
  | [] => []
  | [x] => [x]
  | x :: xs => x :: stripMidAux xs

/-- Dot-segment resolution of CPython `urljoin` (`.` skipped, `..` pops,
popping an empty stack is a no-op). -/
def dotResolve (segs : List String) : List String :=
  segs.foldl
    (fun acc seg =>
      if seg = ".." then acc.dropLast
      else if seg = "." then acc
      else acc ++ [seg]) []

/-- `urllib.parse.urljoin`, translated from CPython. -/
def urljoin (base url : String) : String :=
  if base = "" then url
  else if url = "" then base
  else
    let b := urlparse base
    let u0 := urlparse url
    let scheme := if u0.scheme = "" then b.scheme else u0.scheme
    if scheme ≠ b.scheme ∨ ¬ uses_relative.contains scheme then url
    else if uses_netloc.contains scheme ∧ u0.netloc ≠ "" then
      urlunsplit ⟨scheme, u0.netloc, u0.path, u0.query, u0.fragment⟩
    else
      let netloc := if uses_netloc.contains scheme then b.netloc else u0.netloc
      if u0.path = "" then
        let query := if u0.query = "" then b.query else u0.query
        urlunsplit ⟨scheme, netloc, b.path, query, u0.fragment⟩
      else
        let baseParts0 := splitChar '/' b.path
        let baseParts := if baseParts0.getLastD "" ≠ "" then baseParts0.dropLast else baseParts0
        let segments :=
          if strStartsWith u0.path "/" then splitChar '/' u0.path
          else stripEmptyMiddle (baseParts ++ splitChar '/' u0.path)
        let resolved0 := dotResolve segments
        let resolved :=
          if segments.getLastD "" = "." ∨ segments.getLastD "" = ".." then resolved0 ++ [""]
          else resolved0
        let joined := strJoin "/" resolved
        let path := if joined = "" then "/" else joined
        urlunsplit ⟨scheme, netloc, path, u0.query, u0.fragment⟩

example : urljoin "https://ex.com/page" "/x" = "https://ex.com/x" := by decide
example : urljoin "https://ex.com/a/b" "c/d" = "https://ex.com/a/c/d" := by decide
example : urljoin "http://e.com/a" "//other.com/x" = "http://other.com/x" := by decide
example : urljoin "http://e.com/a" "mailto:a@b" = "mailto:a@b" := by decide
example : urljoin "http://e.com/" "http://example.com/1" = "http://example.com/1" := by decide
example : urlparse "ftp://example.com/x" =
    ⟨"ftp", "example.com", "/x", "", ""⟩ := by decide

/-! ## Request / response records (`app/schemas/url_extract.py`)

`max_links` is `Optional[int]`; the claims only exercise non-negative
values, so it is modelled as `Option Nat`.  `processing_time` (wall-clock
time) is not modelled. -/

structure UrlExtractRequest where
  url : String
  include_external : Bool := true
  include_internal : Bool := true
  max_links : Option Nat := none

structure UrlExtractResponse where
  source_url : String
  extracted_urls : List String
  markdown_content : String
  total_links_found : Nat
  success : Bool
  error_message : Option String
  method : String

/-! ## Requests-based URL extraction (`app/services/url_extractor.py`) -/

/-- `UrlExtractorService._should_include_url` (url_extractor.py, lines
142-160): scheme must be http/https; a URL is internal when its host
equals the base host or ends with `"." + base host`; internal URLs need
`include_internal`, external ones `include_external`. -/
def should_include_url (u : ParsedUrl) (base_domain : String) (req : UrlExtractRequest) : Bool :=
  if ¬ (u.scheme = "http" ∨ u.scheme = "https") then false
  else
    let is_internal := u.netloc = base_domain ∨ strEndsWith u.netloc ("." ++ base_domain)
    if is_internal ∧ ¬ req.include_internal then false
    else if ¬ is_internal ∧ ¬ req.include_external then false
    else true

/-- `UrlExtractorService._extract_from_a_tags`: every `<a href>` whose
value is non-empty and does not start with `#`, resolved against the base
URL and filtered through `_should_include_url`. -/
def extract_from_a_tags (soup : List Node) (base_url base_domain : String)
    (req : UrlExtractRequest) : List String :=
  (findAllForest (fun n => isTagNode "a" n && (nodeAttr n "href").isSome) soup).filterMap
    (fun aTag =>
      let href := (nodeAttr aTag "href").getD ""
      if href = "" ∨ strStartsWith href "#" then none
      else
        let absolute_url := urljoin base_url href
        if should_include_url (urlparse absolute_url) base_domain req then some absolute_url
        else none)

/-- Characters excluded by the source's URL token pattern
`[^\s<>"{}|\\^`[]]+` (written via character codes to keep this file free
of brace and backtick characters). -/
def isUrlTokenChar (c : Char) : Bool :=
  !(c.isWhitespace || [60, 62, 34, 123, 125, 124, 92, 94, 96, 91, 93].contains c.toNat)

/-- Does the list start (case-insensitively) with `https://` or `http://`?
Returns the length of the matched scheme prefix. -/
def httpPrefixLen (cs : List Char) : Option Nat :=
  if ("https://".toList).isPrefixOf (cs.map Char.toLower) then some 8
  else if ("http://".toList).isPrefixOf (cs.map Char.toLower) then some 7
  else none

/-- `re.findall` for the pattern `https?://[^\s...]+` with `re.IGNORECASE`:
left-to-right, non-overlapping, each match is the scheme prefix followed by
a maximal non-empty run of token characters (original casing kept). -/
def scanHttpTokens : Nat → List Char → List String
  | 0, _ => []
  | _, [] => []
  | fuel + 1, c :: rest =>
    match httpPrefixLen (c :: rest) with
    | some k =>
      let after := (c :: rest).drop k
      let run := after.takeWhile isUrlTokenChar
      if run.isEmpty then scanHttpTokens fuel rest
      else String.mk ((c :: rest).take k ++ run) :: scanHttpTokens fuel (after.drop run.length)
    | none => scanHttpTokens fuel rest

/-- `re.findall` for the pattern `www\.[^\s...]+` with `re.IGNORECASE`. -/
def scanWwwTokens : Nat → List Char → List String
  | 0, _ => []
  | _, [] => []
  | fuel + 1, c :: rest =>
    if ("www.".toList).isPrefixOf ((c :: rest).take 4 |>.map Char.toLower) then
      let after := (c :: rest).drop 4
      let run := after.takeWhile isUrlTokenChar
      if run.isEmpty then scanWwwTokens fuel rest
      else String.mk ((c :: rest).take 4 ++ run) :: scanWwwTokens fuel (after.drop run.length)
    else scanWwwTokens fuel rest

/-- Python `s.rstrip(".,;!?)")`. -/
def rstripPunct (s : String) : String :=
  String.mk (((s.toList.reverse).dropWhile
    (fun c => ['.', ',', ';', '!', '?', ')'].contains c)).reverse)

/-- `UrlExtractorService._extract_from_regex`: scan the page text with the
two URL patterns, strip trailing punctuation, prepend `https://` to tokens
starting with `www.`, and keep candidates accepted by
`_should_include_url` (the source's `try` around `urlparse` cannot fire in
the model, since the modelled `urlparse` is total). -/
def extract_from_regex (page_text : String) (base_domain : String)
    (req : UrlExtractRequest) : List String :=
  (scanHttpTokens page_text.length page_text.toList
      ++ scanWwwTokens page_text.length page_text.toList).filterMap
    (fun m =>
      let clean0 := rstripPunct m
      let clean_url := if strStartsWith clean0 "www." then "https://" ++ clean0 else clean0
      if should_include_url (urlparse clean_url) base_domain req then some clean_url
      else none)

/-- First-occurrence deduplication: the model of `list(set(xs))` (Python
set iteration order is unspecified; no claim depends on the order). -/
def dedupAux (seen : List String) : List String → List String
  | [] => []
  | x :: xs => if seen.contains x then dedupAux seen xs else x :: dedupAux (x :: seen) xs

def dedup (l : List String) : List String := dedupAux [] l

/-- The deduplicated URL collection of `UrlExtractorService._extract_urls`
(lines 67-83) before the `max_links` cap: both strategies feed one set. -/
def collected_urls (soup : List Node) (req : UrlExtractRequest) : List String :=
  let base_url := req.url
  let base_domain := (urlparse base_url).netloc
  dedup (extract_from_a_tags soup base_url base_domain req
    ++ extract_from_regex (forestText soup) base_domain req)

/-- `UrlExtractorService._extract_urls` (lines 67-89): the deduplicated
collection, truncated to `max_links` when that is set (truthy, so `0` is
treated like unset) and the collection is longer. -/
def extract_urls (soup : List Node) (req : UrlExtractRequest) : List String :=
  let urls_list := collected_urls soup req
  match req.max_links with
  | some m => if m ≠ 0 ∧ urls_list.length > m then urls_list.take m else urls_list
  | none => urls_list

/-- `UrlExtractorService.extract_urls_and_markdown` (lines 24-65).  The
network fetch and the html2text conversion are external collaborators:
`fetched` is the outcome of fetching+parsing (an exception inside the
`try` block becomes `.error`), and `h2t` stands for
`_convert_to_markdown`, whose output string the claims never inspect. -/
def extract_urls_and_markdown (req : UrlExtractRequest)
    (fetched : Except String (List Node)) (h2t : List Node → String) : UrlExtractResponse :=
  match fetched with
  | .ok soup =>
    let extracted := extract_urls soup req
    { source_url := req.url, extracted_urls := extracted,
      markdown_content := h2t soup, total_links_found := extracted.length,
      success := true, error_message := none, method := "requests" }
  | .error e =>
    { source_url := req.url, extracted_urls := [], markdown_content := "",
      total_links_found := 0, success := false, error_message := some e,
      method := "requests" }

/-! ## Browser-rendered URL extraction (`app/services/selenium_extractor.py`) -/

/-- The selenium variant's excluded file extensions (lines 154-156). -/
def excluded_extensions : List String :=
  [".pdf", ".doc", ".docx", ".xls", ".xlsx", ".ppt", ".pptx",
   ".zip", ".rar", ".7z", ".jpg", ".jpeg", ".png", ".gif",
   ".css", ".js", ".ico", ".xml", ".json"]

/-- `SeleniumExtractorService._should_include_url` (lines 139-162): reject
empty hosts, classify internal by exact host equality, apply the include
flags, then drop excluded file extensions.  (Note: no scheme check and no
sub-domain clause.) -/
def selenium_should_include_url (u : ParsedUrl) (base_domain : String)
    (req : UrlExtractRequest) : Bool :=
  if u.netloc = "" then false
  else
    let is_internal := u.netloc = base_domain
    if is_internal ∧ ¬ req.include_internal then false
    else if ¬ is_internal ∧ ¬ req.include_external then false
    else if excluded_extensions.any (fun ext => strEndsWith (pyLower u.path) ext) then false
    else true

/-- `SeleniumExtractorService._extract_links_from_page` (lines 107-137).
The anchors come from the live browser, so the input is the list of
`get_attribute("href")` results (`none` when the attribute is missing).
Only values starting with `/` are resolved against the base URL; the
result is deduplicated via `list(set(urls))`. -/
def extract_links_from_page (hrefs : List (Option String)) (base_url base_domain : String)
    (req : UrlExtractRequest) : List String :=
  dedup (hrefs.filterMap
    (fun h? =>
      match h? with
      | none => none
      | some href =>
        if href = "" then none
        else
          let absolute_url := if strStartsWith href "/" then urljoin base_url href else href
          if selenium_should_include_url (urlparse absolute_url) base_domain req then
            some absolute_url
          else none))

/-- `SeleniumExtractorService.extract_urls_and_text` (lines 307-360).  The
browser session is the external collaborator: `rendered` carries the href
attributes of the rendered page's anchors and the extracted text content
(`_extract_text_content` runs against the live browser), or the error of
any exception raised inside the `try` block.  Note that `max_links` is
never consulted on this path. -/
def extract_urls_and_text (req : UrlExtractRequest)
    (rendered : Except String (List (Option String) × String)) : UrlExtractResponse :=
  match rendered with
  | .ok payload =>
    let base_domain := (urlparse req.url).netloc
    let extracted := extract_links_from_page payload.1 req.url base_domain req
    { source_url := req.url, extracted_urls := extracted,
      markdown_content := payload.2, total_links_found := extracted.length,
      success := true, error_message := none, method := "selenium" }
  | .error e =>
    { source_url := req.url, extracted_urls := [], markdown_content := "",
      total_links_found := 0, success := false, error_message := some e,
      method := "selenium" }

/-! ## Sanitizer (`app/services/markdown_converter.py`, lines 18-106;
`text_extractor.py` lines 18-96 uses the same lists and code) -/

/-- `MarkdownConverterService.remove_tags`. -/
def remove_tags : List String :=
  ["script", "style", "nav", "header", "footer", "aside",
   "noscript", "iframe", "embed", "object", "applet",
   "form", "input", "button", "select", "textarea",
   "meta", "link", "title", "head"]

/-- The cores of `remove_class_patterns` / `remove_id_patterns`: each
source pattern is the regex `.*CORE.*` compiled with `re.IGNORECASE`,
i.e. case-insensitive containment of CORE. -/
def remove_pattern_cores : List String :=
  ["nav", "menu", "sidebar", "footer", "header", "ad", "banner", "popup",
   "modal", "cookie", "social", "share", "comment", "related", "recommend"]

/-- bs4 `find_all(class_=re.compile(core, re.IGNORECASE))`: an element
matches when some individual class token matches the pattern. -/
def classMatches (core : String) (attrs : List (String × String)) : Bool :=
  (classTokens attrs).any (fun t => strContainsCI t core)

/-- bs4 `find_all(id=re.compile(core, re.IGNORECASE))`. -/
def idMatches (core : String) (attrs : List (String × String)) : Bool :=
  match attrLookup attrs "id" with
  | some v => strContainsCI v core
  | none => false

-- One `find_all` + `decompose` pass: detach every element (with its whole
-- subtree) whose tag name and attributes satisfy `p`.  The predicate sees
-- only the tag name and attributes, exactly like the source's matchers.
mutual
def removeIfNode (p : String → List (String × String) → Bool) : Node → Option Node
  | .text s => some (.text s)
  | .elem t a cs => if p t a then none else some (.elem t a (removeIfForest p cs))

def removeIfForest (p : String → List (String × String) → Bool) : List Node → List Node
  | [] => []
  | n :: ns =>
    match removeIfNode p n with
    | some m => m :: removeIfForest p ns
    | none => removeIfForest p ns
end

/-- `MarkdownConverterService._remove_unwanted_tags` (lines 88-92). -/
def remove_unwanted_tags (soup : List Node) : List Node :=
  remove_tags.foldl (fun s tagName => removeIfForest (fun t _ => t = tagName) s) soup

/-- `MarkdownConverterService._remove_unwanted_elements` (lines 94-106):
class-pattern passes, then id-pattern passes. -/
def remove_unwanted_elements (soup : List Node) : List Node :=
  let s1 := remove_pattern_cores.foldl (fun s core => removeIfForest (fun _ a => classMatches core a) s) soup
  remove_pattern_cores.foldl (fun s core => removeIfForest (fun _ a => idMatches core a) s) s1

/-- The Sanitizer: the two removal stages run by `html_to_markdown` when
`clean_html` is set (lines 66-69). -/
def sanitize (soup : List Node) : List Node :=
  remove_unwanted_elements (remove_unwanted_tags soup)

/-! ## Main-content locator (`markdown_converter.py`, lines 108-138) -/

inductive Selector where
  | tagSel (t : String)
  | classSel (c : String)
  | idSel (i : String)

/-- `main_selectors` (lines 111-115), with the source's `.x` / `#x`
prefixes made explicit. -/
def main_selectors : List Selector :=
  [.tagSel "main", .tagSel "article", .classSel "content", .classSel "main-content",
   .classSel "post-content", .classSel "entry-content", .classSel "article-content",
   .classSel "page-content", .idSel "content", .idSel "main", .idSel "article",
   .idSel "post", .idSel "entry"]

/-- How one selector matches a node: `find_all(tag)`, exact
`find_all(class_=c)` (one of the class tokens equals `c`), or exact
`find_all(id=i)`. -/
def selectorMatches : Selector → Node → Bool
  | .tagSel t, n => isTagNode t n
  | .classSel c, .elem _ a _ => (classTokens a).contains c
  | .classSel _, .text _ => false
  | .idSel i, .elem _ a _ => attrLookup a "id" = some i
  | .idSel _, .text _ => false

/-- Python `max(elements, key=lambda x: len(x.get_text()))` over
`x :: xs`: the first element of maximal text length. -/
def maxByTextLen (x : Node) (xs : List Node) : Node :=
  xs.foldl (fun best y => if (nodeText y).length > (nodeText best).length then y else best) x

/-- The selector loop of `_extract_main_content`: for the first selector
with matches whose longest match exceeds 100 characters of text, return
that longest match. -/
def find_main_from (soup : List Node) : List Selector → Option Node
  | [] => none
  | sel :: rest =>
    match findAllForest (selectorMatches sel) soup with
    | [] => find_main_from soup rest
    | e :: es =>
      let main_element := maxByTextLen e es
      if (nodeText main_element).length > 100 then some main_element
      else find_main_from soup rest

/-- `MarkdownConverterService._extract_main_content` (lines 108-138). -/
def extract_main_content (soup : List Node) : Option Node :=
  find_main_from soup main_selectors

/-- The fallback of `html_to_markdown` (lines 72-74):
`main_content = self._extract_main_content(soup)` then
`if not main_content: main_content = soup.find("body") or soup`.
A bs4 Tag is always truthy, so the fallback fires exactly on `None`. -/
def locate_main_content (soup : List Node) : List Node :=
  match extract_main_content soup with
  | some m => [m]
  | none =>
    match (findAllForest (isTagNode "body") soup).head? with
    | some b => [b]
    | none => soup

/-! ## Markdown renderer: href/src resolution and tables
(`markdown_converter.py`, lines 163-283) -/

/-- The href handling of `_convert_tag_to_markdown` for `<a>` (lines
182-188): with a non-empty base URL, values not starting with `http://`,
`https://`, `mailto:` or `tel:` are resolved via `urljoin`. -/
def resolveHref (base_url href : String) : String :=
  if base_url ≠ "" ∧ ¬ (strStartsWith href "http://" ∨ strStartsWith href "https://"
      ∨ strStartsWith href "mailto:" ∨ strStartsWith href "tel:") then
    urljoin base_url href
  else href

/-- The src handling of `_convert_tag_to_markdown` for `<img>` (lines
192-199): same, with pass-through list `http://`, `https://`, `data:`. -/
def resolveSrc (base_url src : String) : String :=
  if base_url ≠ "" ∧ ¬ (strStartsWith src "http://" ∨ strStartsWith src "https://"
      ∨ strStartsWith src "data:") then
    urljoin base_url src
  else src

/-- One pipe-delimited markdown table row. -/
def mkRowLine (cells : List String) : String :=
  "| " ++ strJoin " | " cells ++ " |"

/-- `MarkdownConverterService._convert_table_to_markdown` (lines 254-283).
The membership test `tr in thead.find_all("tr")` uses bs4 structural tag
equality (`nodeBEq`).  The surrounding `try` cannot fire in the model. -/
def convert_table_to_markdown (table : Node) : String :=
  let theadOpt := findIn table (isTagNode "thead")
  let headerRows :=
    match theadOpt with
    | some thead =>
      match findIn thead (isTagNode "tr") with
      | some header_row =>
        let headers := (findAllIn header_row
            (fun n => isTagNode "th" n || isTagNode "td" n)).map (fun c => pyStrip (nodeText c))
        if headers ≠ [] then
          [mkRowLine headers, mkRowLine (headers.map (fun _ => "---"))]
        else []
      | none => []
    | none => []
  let tbody :=
    match findIn table (isTagNode "tbody") with
    | some tb => tb
    | none => table
  let theadTrs :=
    match theadOpt with
    | some thead => findAllIn thead (isTagNode "tr")
    | none => []
  let bodyRows := (findAllIn tbody (isTagNode "tr")).filterMap
    (fun tr =>
      if theadOpt.isSome ∧ theadTrs.any (fun x => nodeBEq x tr) then none
      else
        let cells := (findAllIn tr
            (fun n => isTagNode "td" n || isTagNode "th" n)).map (fun c => pyStrip (nodeText c))
        if cells ≠ [] then some (mkRowLine cells) else none)
  strJoin "\n" (headerRows ++ bodyRows) ++ "\n"

/-- A canonical well-formed table: a `thead` holding one header row of
`th` cells, and a `tbody` of rows of `td` cells. -/
def mkTh (s : String) : Node := .elem "th" [] [.text s]

def mkTd (s : String) : Node := .elem "td" [] [.text s]

def mkHeadTr (hs : List String) : Node := .elem "tr" [] (hs.map mkTh)

def mkBodyTr (r : List String) : Node := .elem "tr" [] (r.map mkTd)

def mkTable (hs : List String) (body : List (List String)) : Node :=
  .elem "table" []
    [.elem "thead" [] [mkHeadTr hs], .elem "tbody" [] (body.map mkBodyTr)]

/-! ## Metadata extractor (`markdown_converter.py` lines 359-400;
`text_extractor.py` lines 231-256 is the identical code) -/

/-- `MarkdownConverterService._extract_title` (lines 359-371): the trimmed
text of the first `<title>`; only when no `<title>` exists at all, the
trimmed text of the first `<h1>`; else the empty string.  (A bs4 Tag is
always truthy, so an empty `<title>` still wins.) -/
def extract_title (soup : List Node) : String :=
  match (findAllForest (isTagNode "title") soup).head? with
  | some title_tag => pyStrip (nodeText title_tag)
  | none =>
    match (findAllForest (isTagNode "h1") soup).head? with
    | some h1_tag => pyStrip (nodeText h1_tag)
    | none => ""

/-- The heading tag table for `_extract_headings`: the source iterates
`i` over `range(1, 7)` and searches `f"h{i}"`. -/
def heading_tags : List (Nat × String) :=
  [(1, "h1"), (2, "h2"), (3, "h3"), (4, "h4"), (5, "h5"), (6, "h6")]

/-- `MarkdownConverterService._extract_headings` (lines 389-400): for each
level 1..6 in turn, all headings of that level with non-empty trimmed
text. -/
def extract_headings (soup : List Node) : List (Nat × String) :=
  heading_tags.flatMap
    (fun lv =>
      (findAllForest (isTagNode lv.2) soup).filterMap
        (fun n =>
          let t := pyStrip (nodeText n)
          if t ≠ "" then some (lv.1, t) else none))

/-- The heading level of a node, when it is an `h1`..`h6` element. -/
def headingLevel : Node → Option Nat
  | .elem t _ _ =>
    if t = "h1" then some 1 else if t = "h2" then some 2
    else if t = "h3" then some 3 else if t = "h4" then some 4
    else if t = "h5" then some 5 else if t = "h6" then some 6 else none
  | .text _ => none

/-- Modelled from the spec ("every h1..h6 in document order with
non-empty text, each tagged with its numeric level"): the heading records
in document order, used as the contrast definition for C3. -/
def docOrderHeadings (soup : List Node) : List (Nat × String) :=
  (forestList soup).filterMap
    (fun n =>
      match headingLevel n with
      | some l =>
        let t := pyStrip (nodeText n)
        if t ≠ "" then some (l, t) else none
      | none => none)


/-! ## Basic lemmas -/

theorem forestList_append (l1 l2 : List Node) :
    forestList (l1 ++ l2) = forestList l1 ++ forestList l2 := by
  induction l1 with
  | nil => simp [forestList]
  | cons n ns ih => simp [forestList, ih]

theorem forestText_append (l1 l2 : List Node) :
    forestText (l1 ++ l2) = forestText l1 ++ forestText l2 := by
  induction l1 with
  | nil => simp [forestText]
  | cons n ns ih => simp [forestText, ih, String.append_assoc]

theorem mem_of_mem_dedupAux :
    ∀ (l seen : List String) (x : String), x ∈ dedupAux seen l → x ∈ l := by
  intro l
  induction l with
  | nil => intro seen x h; simp [dedupAux] at h
  | cons y ys ih =>
    intro seen x h
    simp only [dedupAux] at h
    by_cases hc : seen.contains y
    · simp only [hc, if_true] at h
      exact List.mem_cons_of_mem _ (ih _ _ h)
    · simp only [hc, if_false, Bool.false_eq_true] at h
      rcases List.mem_cons.mp h with h | h
      · simp [h]
      · exact List.mem_cons_of_mem _ (ih _ _ h)

theorem not_seen_of_mem_dedupAux :
    ∀ (l seen : List String) (x : String), x ∈ dedupAux seen l → ¬ x ∈ seen := by
  intro l
  induction l with
  | nil => intro seen x h; simp [dedupAux] at h
  | cons y ys ih =>
    intro seen x h
    simp only [dedupAux] at h
    by_cases hc : seen.contains y
    · simp only [hc, if_true] at h
      exact ih _ _ h
    · simp only [hc, if_false, Bool.false_eq_true] at h
      rcases List.mem_cons.mp h with h | h
      · subst h
        intro hx
        exact hc (List.elem_iff.mpr hx)
      · intro hx
        exact ih _ _ h (List.mem_cons_of_mem _ hx)

theorem dedupAux_nodup : ∀ (l seen : List String), (dedupAux seen l).Nodup := by
  intro l
  induction l with
  | nil => intro seen; simp [dedupAux]
  | cons y ys ih =>
    intro seen
    simp only [dedupAux]
    by_cases hc : seen.contains y
    · simp only [hc, if_true]; exact ih seen
    · simp only [hc, if_false, Bool.false_eq_true]
      refine List.nodup_cons.mpr ⟨?_, ih _⟩
      intro hy
      exact not_seen_of_mem_dedupAux _ _ _ hy (List.mem_cons_self _ _)

theorem dedup_nodup (l : List String) : (dedup l).Nodup :=
  dedupAux_nodup l []

theorem mem_of_mem_dedup {l : List String} {x : String} (h : x ∈ dedup l) : x ∈ l :=
  mem_of_mem_dedupAux l [] x h

/-! ## C9 — the extraction entry points always return a well-formed
structured result -/

/-- C9: For every request and every outcome of the external collaborators
(fetch/parse for the requests variant, browser rendering for the selenium
variant), the entry points are total functions into well-formed response
records: on failure, `success = false`, an error message is present, and
the URL list, link count and content are empty; on success,
`success = true`, no error message, and the link count equals the length
of the extracted URL list. -/
theorem extraction_entry_points_wellformed
    (req : UrlExtractRequest) (fetched : Except String (List Node))
    (h2t : List Node → String)
    (rendered : Except String (List (Option String) × String)) :
    (((extract_urls_and_markdown req fetched h2t).success = false →
        (extract_urls_and_markdown req fetched h2t).extracted_urls = [] ∧
        (extract_urls_and_markdown req fetched h2t).total_links_found = 0 ∧
        (extract_urls_and_markdown req fetched h2t).markdown_content = "" ∧
        (extract_urls_and_markdown req fetched h2t).error_message.isSome) ∧
      ((extract_urls_and_markdown req fetched h2t).success = true →
        (extract_urls_and_markdown req fetched h2t).total_links_found =
          (extract_urls_and_markdown req fetched h2t).extracted_urls.length ∧
        (extract_urls_and_markdown req fetched h2t).error_message = none)) ∧
    (((extract_urls_and_text req rendered).success = false →
        (extract_urls_and_text req rendered).extracted_urls = [] ∧
        (extract_urls_and_text req rendered).total_links_found = 0 ∧
        (extract_urls_and_text req rendered).markdown_content = "" ∧
        (extract_urls_and_text req rendered).error_message.isSome) ∧
      ((extract_urls_and_text req rendered).success = true →
        (extract_urls_and_text req rendered).total_links_found =
          (extract_urls_and_text req rendered).extracted_urls.length ∧
        (extract_urls_and_text req rendered).error_message = none)) := by
  constructor
  · cases fetched with
    | ok soup => simp [extract_urls_and_markdown]
    | error e => simp [extract_urls_and_markdown]
  · cases rendered with
    | ok payload => simp [extract_urls_and_text]
    | error e => simp [extract_urls_and_text]

/-- Witness for C9 at a concrete failing fetch and a concrete successful
rendering. -/
theorem extraction_entry_points_wellformed_witness :
    (extract_urls_and_markdown ⟨"http://example.com/", true, true, none⟩
        (.error "boom") (fun _ => "")).extracted_urls = [] ∧
    (extract_urls_and_markdown ⟨"http://example.com/", true, true, none⟩
        (.error "boom") (fun _ => "")).total_links_found = 0 ∧
    (extract_urls_and_markdown ⟨"http://example.com/", true, true, none⟩
        (.error "boom") (fun _ => "")).markdown_content = "" ∧
    (extract_urls_and_markdown ⟨"http://example.com/", true, true, none⟩
        (.error "boom") (fun _ => "")).error_message.isSome := by
  exact (extraction_entry_points_wellformed ⟨"http://example.com/", true, true, none⟩
    (.error "boom") (fun _ => "") (.ok ([], ""))).1.1 rfl

/-! ## C10 — a present-but-empty title element wins over the h1 fallback -/

/-- C10: whenever the document contains a `<title>` element, the extracted
title is the trimmed text of the first one — even when that text is empty;
the first-`<h1>` fallback is consulted only when no `<title>` element
exists, and the result degrades to `""` when neither exists. -/
theorem title_prefers_title_tag (soup : List Node) :
    (∀ t rest, findAllForest (isTagNode "title") soup = t :: rest →
      extract_title soup = pyStrip (nodeText t)) ∧
    (findAllForest (isTagNode "title") soup = [] →
      (∀ h rest, findAllForest (isTagNode "h1") soup = h :: rest →
        extract_title soup = pyStrip (nodeText h)) ∧
      (findAllForest (isTagNode "h1") soup = [] → extract_title soup = "")) := by
  refine ⟨?_, ?_⟩
  · intro t rest ht
    simp [extract_title, ht]
  · intro hnone
    refine ⟨?_, ?_⟩
    · intro h rest hh
      simp [extract_title, hnone, hh]
    · intro hh
      simp [extract_title, hnone, hh]

/-- Witness for C10: a document with an empty `<title>` and a non-empty
`<h1>` yields the empty title, not the `<h1>` text. -/
theorem title_prefers_title_tag_witness :
    extract_title [Node.elem "title" [] [], Node.elem "h1" [] [.text "Hello"]] = "" ∧
    pyStrip (nodeText (Node.elem "h1" [] [.text "Hello"])) = "Hello" :=
  ⟨(title_prefers_title_tag
      [Node.elem "title" [] [], Node.elem "h1" [] [.text "Hello"]]).1
      (Node.elem "title" [] []) [] rfl,
   rfl⟩

/-! ## C2 — internal/external classification -/

/-- C2 (amended): the requests-based predicate accepts a URL exactly when
its scheme is http/https, internal URLs (host equal to the base host or a
sub-domain of it) require `include_internal`, and external URLs require
`include_external`.  The browser-rendered variant's predicate instead
accepts exactly when the host is non-empty, the include flag matching its
exact-host-equality classification is set, and the path ends in no
excluded file extension — it never examines the scheme and treats
sub-domains as external. -/
theorem classification_predicate_spec (u : ParsedUrl) (bd : String) (req : UrlExtractRequest) :
    (should_include_url u bd req = true ↔
      ((u.scheme = "http" ∨ u.scheme = "https") ∧
        ((u.netloc = bd ∨ strEndsWith u.netloc ("." ++ bd) = true) → req.include_internal = true) ∧
        (¬ (u.netloc = bd ∨ strEndsWith u.netloc ("." ++ bd) = true) → req.include_external = true))) ∧
    (selenium_should_include_url u bd req = true ↔
      (u.netloc ≠ "" ∧
        (u.netloc = bd → req.include_internal = true) ∧
        (u.netloc ≠ bd → req.include_external = true) ∧
        ∀ ext ∈ excluded_extensions, strEndsWith (pyLower u.path) ext = false)) := by
  constructor
  · simp only [should_include_url]
    split_ifs with h1 h2 h3 <;> simp_all
  · simp only [selenium_should_include_url]
    split_ifs with h1 h2 h3 h4 <;> simp_all [List.any_eq_true]

/-- Witness for C2 at the spec's concrete examples: with both include
flags set, `https://sub.example.com/x` (internal sub-domain) is kept and
`ftp://example.com/x` is rejected by the requests-based predicate. -/
theorem classification_predicate_spec_witness :
    should_include_url (urlparse "https://sub.example.com/x") "example.com"
      ⟨"", true, true, none⟩ = true ∧
    should_include_url (urlparse "ftp://example.com/x") "example.com"
      ⟨"", true, true, none⟩ = false := by
  constructor
  · exact (classification_predicate_spec (urlparse "https://sub.example.com/x")
      "example.com" ⟨"", true, true, none⟩).1.mpr (by decide)
  · by_contra h
    have h2 := (classification_predicate_spec (urlparse "ftp://example.com/x")
        "example.com" ⟨"", true, true, none⟩).1.mp (by
      revert h
      cases hb : should_include_url (urlparse "ftp://example.com/x") "example.com"
        ⟨"", true, true, none⟩ <;> simp)
    revert h2
    decide

/-- C2 counterexample: the browser-rendered variant's predicate accepts
`ftp://example.com/x` (no scheme rejection), and drops the internal
sub-domain URL `https://sub.example.com/x` when only internal links are
requested (it classifies sub-domains as external). -/
theorem selenium_classification_counterexample :
    selenium_should_include_url (urlparse "ftp://example.com/x") "example.com"
      ⟨"", true, true, none⟩ = true ∧
    selenium_should_include_url (urlparse "https://sub.example.com/x") "example.com"
      ⟨"", false, true, none⟩ = false := by decide

/-! ## C4 — the max_links cap -/

/-- C4 (amended): in the requests-based variant, when `max_links` is set
to a positive `m` and the deduplicated collection is longer than `m`, the
returned list is its first `m` items (hence has length exactly `m`);
when `max_links` is unset or the collection is no longer than `m`, the
full collection is returned.  The browser-rendered variant returns the
full deduplicated collection regardless of `max_links`. -/
theorem max_links_cap (soup : List Node) (req : UrlExtractRequest) :
    (req.max_links = none → extract_urls soup req = collected_urls soup req) ∧
    (∀ m, req.max_links = some m → 0 < m →
      ((collected_urls soup req).length > m →
        extract_urls soup req = (collected_urls soup req).take m ∧
        (extract_urls soup req).length = m) ∧
      ((collected_urls soup req).length ≤ m →
        extract_urls soup req = collected_urls soup req)) ∧
    (∀ hrefs txt, (extract_urls_and_text req (.ok (hrefs, txt))).extracted_urls =
      extract_links_from_page hrefs req.url (urlparse req.url).netloc req) := by
  refine ⟨?_, ?_, ?_⟩
  · intro h
    simp [extract_urls, h]
  · intro m hm hpos
    constructor
    · intro hlen
      have hcond : m ≠ 0 ∧ (collected_urls soup req).length > m :=
        ⟨Nat.pos_iff_ne_zero.mp hpos, hlen⟩
      have heq : extract_urls soup req = (collected_urls soup req).take m := by
        simp [extract_urls, hm, hcond]
      refine ⟨heq, ?_⟩
      rw [heq, List.length_take]
      exact Nat.min_eq_left (Nat.le_of_lt hlen)
    · intro hlen
      have hcond : ¬ (m ≠ 0 ∧ (collected_urls soup req).length > m) := by
        intro ⟨_, hgt⟩
        exact absurd hlen (Nat.not_le_of_lt hgt)
      simp [extract_urls, hm, hcond]
  · intro hrefs txt
    rfl

/-- Witness for C4: two deduplicated URLs and `max_links = 1` give a
result of length exactly 1. -/
theorem max_links_cap_witness :
    (extract_urls
      [Node.elem "a" [("href", "http://example.com/1")] [],
       Node.elem "a" [("href", "http://example.com/2")] []]
      ⟨"http://example.com/", true, true, some 1⟩).length = 1 :=
  (((max_links_cap
      [Node.elem "a" [("href", "http://example.com/1")] [],
       Node.elem "a" [("href", "http://example.com/2")] []]
      ⟨"http://example.com/", true, true, some 1⟩).2.1 1 rfl
      (by decide)).1 (by decide)).2

/-- C4 counterexample: the browser-rendered variant ignores `max_links`
entirely — 11 distinct extracted URLs with `max_links = 10` yield a list
of length 11, not 10. -/
theorem selenium_ignores_max_links :
    (extract_urls_and_text ⟨"http://example.com/", true, true, some 10⟩
      (.ok ([some "http://example.com/p0", some "http://example.com/p1",
             some "http://example.com/p2", some "http://example.com/p3",
             some "http://example.com/p4", some "http://example.com/p5",
             some "http://example.com/p6", some "http://example.com/p7",
             some "http://example.com/p8", some "http://example.com/p9",
             some "http://example.com/p10"], ""))).extracted_urls.length = 11 ∧
    ¬ (11 = 10) := by
  constructor
  · decide
  · decide

/-! ## C1 — deduplication and scheme validation of the URL set -/

theorem should_include_url_scheme {u : ParsedUrl} {bd : String} {req : UrlExtractRequest}
    (h : should_include_url u bd req = true) :
    u.scheme = "http" ∨ u.scheme = "https" := by
  by_contra hn
  simp [should_include_url, hn] at h

theorem mem_filterMap_guard {α : Type} (g : α → String) (P : String → Bool)
    {l : List α} {u : String}
    (h : u ∈ l.filterMap (fun a => if P (g a) then some (g a) else none)) :
    P u = true := by
  rcases List.mem_filterMap.mp h with ⟨a, _, heq⟩
  by_cases hp : P (g a)
  · rw [if_pos hp] at heq
    cases heq
    exact hp
  · rw [if_neg hp] at heq
    cases heq

theorem mem_filterMap_guard2 {α : Type} (g : α → String) (P : String → Bool)
    (Q : α → Prop) [DecidablePred Q] {l : List α} {u : String}
    (h : u ∈ l.filterMap (fun a => if Q a then none else
      if P (g a) then some (g a) else none)) :
    P u = true := by
  rcases List.mem_filterMap.mp h with ⟨a, _, heq⟩
  by_cases hq : Q a
  · rw [if_pos hq] at heq
    cases heq
  · rw [if_neg hq] at heq
    by_cases hp : P (g a)
    · rw [if_pos hp] at heq
      cases heq
      exact hp
    · rw [if_neg hp] at heq
      cases heq

theorem mem_a_tags_should_include {soup : List Node} {bu bd : String}
    {req : UrlExtractRequest} {u : String}
    (h : u ∈ extract_from_a_tags soup bu bd req) :
    should_include_url (urlparse u) bd req = true :=
  mem_filterMap_guard2
    (fun aTag => urljoin bu ((nodeAttr aTag "href").getD ""))
    (fun x => should_include_url (urlparse x) bd req)
    (fun aTag => (nodeAttr aTag "href").getD "" = "" ∨
      strStartsWith ((nodeAttr aTag "href").getD "") "#" = true)
    h

theorem mem_regex_should_include {txt bd : String}
    {req : UrlExtractRequest} {u : String}
    (h : u ∈ extract_from_regex txt bd req) :
    should_include_url (urlparse u) bd req = true :=
  mem_filterMap_guard
    (fun m => if strStartsWith (rstripPunct m) "www." then
      "https://" ++ rstripPunct m else rstripPunct m)
    (fun x => should_include_url (urlparse x) bd req)
    h

theorem extract_urls_eq_none (soup : List Node) (req : UrlExtractRequest)
    (h : req.max_links = none) : extract_urls soup req = collected_urls soup req := by
  simp only [extract_urls, h]

theorem extract_urls_eq_some (soup : List Node) (req : UrlExtractRequest) (m : Nat)
    (h : req.max_links = some m) :
    extract_urls soup req =
      if m ≠ 0 ∧ (collected_urls soup req).length > m
      then (collected_urls soup req).take m else collected_urls soup req := by
  simp only [extract_urls, h]

/-- C1 (amended): the requests-based URL list is duplicate-free and every
member parses with scheme http or https (each candidate passed
`_should_include_url` before insertion); the browser-rendered list is
likewise duplicate-free, but its members are only host-filtered — its
predicate never validates the scheme (see the counterexample). -/
theorem url_set_invariants (soup : List Node) (req : UrlExtractRequest)
    (hrefs : List (Option String)) (base_url base_domain : String) :
    (extract_urls soup req).Nodup ∧
    (∀ u ∈ extract_urls soup req,
      (urlparse u).scheme = "http" ∨ (urlparse u).scheme = "https") ∧
    (extract_links_from_page hrefs base_url base_domain req).Nodup := by
  have hcoll : collected_urls soup req =
      dedup (extract_from_a_tags soup req.url (urlparse req.url).netloc req
        ++ extract_from_regex (forestText soup) (urlparse req.url).netloc req) := rfl
  have hnodup : (collected_urls soup req).Nodup := by
    rw [hcoll]; exact dedup_nodup _
  have hmem : ∀ u ∈ extract_urls soup req, u ∈ collected_urls soup req := by
    intro u hu
    cases hml : req.max_links with
    | none =>
      rw [extract_urls_eq_none soup req hml] at hu
      exact hu
    | some m =>
      rw [extract_urls_eq_some soup req m hml] at hu
      by_cases hc : m ≠ 0 ∧ (collected_urls soup req).length > m
      · rw [if_pos hc] at hu
        exact List.mem_of_mem_take hu
      · rw [if_neg hc] at hu
        exact hu
  refine ⟨?_, ?_, ?_⟩
  · cases hml : req.max_links with
    | none =>
      rw [extract_urls_eq_none soup req hml]
      exact hnodup
    | some m =>
      rw [extract_urls_eq_some soup req m hml]
      by_cases hc : m ≠ 0 ∧ (collected_urls soup req).length > m
      · rw [if_pos hc]
        exact hnodup.sublist (List.take_sublist _ _)
      · rw [if_neg hc]
        exact hnodup
  · intro u hu
    have hc := hmem u hu
    rw [hcoll] at hc
    rcases List.mem_append.mp (mem_of_mem_dedup hc) with hc2 | hc2
    · exact should_include_url_scheme (mem_a_tags_should_include hc2)
    · exact should_include_url_scheme (mem_regex_should_include hc2)
  · exact dedup_nodup _

/-- Witness for C1: a URL in a concrete requests-based extraction indeed
parses with an http scheme. -/
theorem url_set_invariants_witness :
    (urlparse "http://example.com/1").scheme = "http" ∨
    (urlparse "http://example.com/1").scheme = "https" :=
  (url_set_invariants [Node.elem "a" [("href", "http://example.com/1")] []]
    ⟨"http://example.com/", true, true, none⟩ [] "" "").2.1
    "http://example.com/1" (by decide)

/-- C1 counterexample: the browser-rendered variant inserts a URL whose
scheme is `ftp` — no http/https validation happens on that path. -/
theorem selenium_urls_unvalidated_scheme :
    extract_links_from_page [some "ftp://files.example.com/a"] "http://example.com/"
      "example.com" ⟨"http://example.com/", true, true, none⟩ =
      ["ftp://files.example.com/a"] ∧
    (urlparse "ftp://files.example.com/a").scheme = "ftp" := by
  constructor
  · decide
  · decide

/-! ## C8 — sanitizer idempotence -/

mutual
theorem removeIfNode_comp (p q : String → List (String × String) → Bool) :
    ∀ n : Node, (removeIfNode q n).bind (removeIfNode p) =
      removeIfNode (fun t a => q t a || p t a) n
  | .text s => by simp [removeIfNode]
  | .elem t a cs => by
    by_cases hq : q t a
    · simp [removeIfNode, hq]
    · by_cases hp : p t a
      · simp [removeIfNode, hq, hp]
      · simp [removeIfNode, hq, hp, removeIfForest_comp p q cs]

theorem removeIfForest_comp (p q : String → List (String × String) → Bool) :
    ∀ s : List Node, removeIfForest p (removeIfForest q s) =
      removeIfForest (fun t a => q t a || p t a) s
  | [] => by simp [removeIfForest]
  | n :: ns => by
    have hn := removeIfNode_comp p q n
    have hns := removeIfForest_comp p q ns
    cases hqn : removeIfNode q n with
    | none =>
      rw [hqn] at hn
      simp only [Option.none_bind] at hn
      simp only [removeIfForest, hqn, ← hn]
      exact hns
    | some m =>
      rw [hqn] at hn
      simp only [Option.some_bind] at hn
      simp only [removeIfForest, hqn, ← hn]
      cases hpm : removeIfNode p m with
      | none => simp only [removeIfForest]; exact hns
      | some m2 => simp only [removeIfForest, hns]
end

mutual
theorem removeIfNode_false : ∀ n : Node, removeIfNode (fun _ _ => false) n = some n
  | .text s => by simp [removeIfNode]
  | .elem t a cs => by simp [removeIfNode, removeIfForest_false cs]

theorem removeIfForest_false : ∀ s : List Node, removeIfForest (fun _ _ => false) s = s
  | [] => by simp [removeIfForest]
  | n :: ns => by
    simp [removeIfForest, removeIfNode_false n, removeIfForest_false ns]
end

theorem foldl_removeIf_chain {α : Type} (f : α → String → List (String × String) → Bool) :
    ∀ (cs : List α) (p0 : String → List (String × String) → Bool) (s : List Node),
    cs.foldl (fun s c => removeIfForest (f c) s) (removeIfForest p0 s) =
      removeIfForest (fun t a => p0 t a || cs.any (fun c => f c t a)) s
  | [], p0, s => by
    simp only [List.foldl_nil, List.any_nil]
    congr 1
    funext t a
    simp
  | c :: cs, p0, s => by
    simp only [List.foldl_cons]
    rw [removeIfForest_comp (f c) p0 s]
    rw [foldl_removeIf_chain f cs (fun t a => p0 t a || f c t a) s]
    congr 1
    funext t a
    simp [Bool.or_assoc]

theorem foldl_removeIf (cs : List String) (f : String → String → List (String × String) → Bool)
    (s : List Node) :
    cs.foldl (fun s c => removeIfForest (f c) s) s =
      removeIfForest (fun t a => cs.any (fun c => f c t a)) s := by
  conv_lhs => rw [← removeIfForest_false s]
  rw [foldl_removeIf_chain f cs (fun _ _ => false) s]
  congr 1

/-- The combined removal predicate of the Sanitizer: tag in the removal
list, or some class pattern matches, or some id pattern matches. -/
def sanitizePred (t : String) (a : List (String × String)) : Bool :=
  remove_tags.any (fun tn => t = tn) ||
    (remove_pattern_cores.any (fun c => classMatches c a) ||
      remove_pattern_cores.any (fun c => idMatches c a))

theorem sanitize_eq (soup : List Node) : sanitize soup = removeIfForest sanitizePred soup := by
  unfold sanitize remove_unwanted_tags remove_unwanted_elements
  rw [foldl_removeIf remove_tags (fun tn t _ => t = tn) soup]
  rw [foldl_removeIf remove_pattern_cores (fun c _ a => classMatches c a)]
  rw [foldl_removeIf remove_pattern_cores (fun c _ a => idMatches c a)]
  rw [removeIfForest_comp]
  rw [removeIfForest_comp]
  congr 1

/-- C8: applying the Sanitizer (tag-list removal followed by the
class/id pattern removal passes) twice yields the same tree as applying
it once. -/
theorem sanitizer_idempotent (soup : List Node) :
    sanitize (sanitize soup) = sanitize soup := by
  rw [sanitize_eq soup, sanitize_eq (removeIfForest sanitizePred soup)]
  rw [removeIfForest_comp]
  congr 1
  funext t a
  simp

/-! ## C3 — heading records -/

theorem flatMap_congr_mem {α β : Type} {l : List α} {f g : α → List β}
    (h : ∀ a ∈ l, f a = g a) : l.flatMap f = l.flatMap g := by
  induction l with
  | nil => rfl
  | cons a as ih =>
    simp only [List.flatMap_cons]
    rw [h a (List.mem_cons_self a as), ih (fun b hb => h b (List.mem_cons_of_mem a hb))]

theorem heading_iff : ∀ lv ∈ heading_tags, ∀ n : Node,
    (isTagNode lv.2 n = true ↔ headingLevel n = some lv.1) := by
  intro lv hlv n
  fin_cases hlv <;>
    (cases n with
     | text s => simp [isTagNode, headingLevel]
     | elem t a c =>
       simp only [isTagNode, headingLevel, decide_eq_true_eq]
       split_ifs <;> simp_all)

theorem per_level_headings (soup : List Node) (i : Nat) (tg : String)
    (hiff : ∀ n : Node, isTagNode tg n = true ↔ headingLevel n = some i) :
    (findAllForest (isTagNode tg) soup).filterMap
      (fun n => if pyStrip (nodeText n) ≠ "" then some (i, pyStrip (nodeText n)) else none) =
    (docOrderHeadings soup).filter (fun r => r.1 = i) := by
  unfold findAllForest docOrderHeadings
  rw [List.filterMap_filter, List.filter_filterMap]
  congr 1
  funext n
  by_cases htg : isTagNode tg n = true
  · have hl := (hiff n).mp htg
    rw [if_pos htg, hl]
    dsimp only
    by_cases hs : pyStrip (nodeText n) ≠ ""
    · rw [if_pos hs]
      simp [Option.filter]
    · rw [if_neg hs]
      simp [Option.filter]
  · rw [if_neg htg]
    cases hl : headingLevel n with
    | none => simp [Option.filter]
    | some l =>
      dsimp only
      have hne : l ≠ i := by
        intro he
        subst he
        exact htg ((hiff n).mpr hl)
      by_cases hs : pyStrip (nodeText n) ≠ ""
      · rw [if_pos hs]
        simp [Option.filter, hne]
      · rw [if_neg hs]
        simp [Option.filter]

theorem headingLevel_mem_heading_tags {n : Node} {l : Nat}
    (h : headingLevel n = some l) : ∃ tg, (l, tg) ∈ heading_tags := by
  cases n with
  | text s => simp [headingLevel] at h
  | elem t a c =>
    simp only [headingLevel] at h
    split_ifs at h <;>
      (cases h; simp [heading_tags])

/-- C3 (amended): the headings output contains exactly the h1-h6 elements
whose trimmed text is non-empty, each tagged with its numeric level, but
ordered primarily by level (all level-1 records first, then level-2, and
so on), with document order only within each level — not overall document
order. -/
theorem headings_grouped_by_level (soup : List Node) :
    extract_headings soup =
      heading_tags.flatMap (fun lv => (docOrderHeadings soup).filter (fun r => r.1 = lv.1)) ∧
    (∀ r, r ∈ extract_headings soup ↔ r ∈ docOrderHeadings soup) := by
  have hmain : extract_headings soup =
      heading_tags.flatMap (fun lv => (docOrderHeadings soup).filter (fun r => r.1 = lv.1)) := by
    unfold extract_headings
    exact flatMap_congr_mem (fun lv hlv => per_level_headings soup lv.1 lv.2 (heading_iff lv hlv))
  refine ⟨hmain, ?_⟩
  intro r
  constructor
  · intro hr
    rw [hmain] at hr
    rcases List.mem_flatMap.mp hr with ⟨lv, _, hin⟩
    exact List.mem_of_mem_filter hin
  · intro hr
    rcases List.mem_filterMap.mp hr with ⟨n, hn, heq⟩
    cases hl : headingLevel n with
    | none => rw [hl] at heq; cases heq
    | some l =>
      rw [hl] at heq
      dsimp only at heq
      by_cases hs : pyStrip (nodeText n) ≠ ""
      · rw [if_pos hs] at heq
        cases heq
        rcases headingLevel_mem_heading_tags hl with ⟨tg, htg⟩
        rw [hmain]
        refine List.mem_flatMap.mpr ⟨(l, tg), htg, ?_⟩
        refine List.mem_filter.mpr ⟨hr, by simp⟩
      · rw [if_neg hs] at heq
        cases heq

/-- Witness for C3: membership transfer at a concrete document. -/
theorem headings_grouped_by_level_witness :
    (1, "B") ∈ docOrderHeadings [Node.elem "h2" [] [.text "A"], Node.elem "h1" [] [.text "B"]] :=
  ((headings_grouped_by_level
      [Node.elem "h2" [] [.text "A"], Node.elem "h1" [] [.text "B"]]).2 (1, "B")).mp
    (by decide)

/-- C3 counterexample: with an `<h2>` before an `<h1>`, the extractor
returns the records grouped by level, which differs from document
order. -/
theorem headings_not_document_order :
    extract_headings [Node.elem "h2" [] [.text "A"], Node.elem "h1" [] [.text "B"]] =
      [(1, "B"), (2, "A")] ∧
    docOrderHeadings [Node.elem "h2" [] [.text "A"], Node.elem "h1" [] [.text "B"]] =
      [(2, "A"), (1, "B")] ∧
    extract_headings [Node.elem "h2" [] [.text "A"], Node.elem "h1" [] [.text "B"]] ≠
      docOrderHeadings [Node.elem "h2" [] [.text "A"], Node.elem "h1" [] [.text "B"]] := by
  refine ⟨by decide, by decide, by decide⟩

/-! ## C7 — the main-content locator -/

theorem maxByTextLen_mem (x : Node) (xs : List Node) :
    maxByTextLen x xs = x ∨ maxByTextLen x xs ∈ xs := by
  induction xs generalizing x with
  | nil => left; rfl
  | cons y ys ih =>
    have h := ih (if (nodeText y).length > (nodeText x).length then y else x)
    have hform : maxByTextLen x (y :: ys) =
        maxByTextLen (if (nodeText y).length > (nodeText x).length then y else x) ys := rfl
    rcases h with h | h
    · rw [hform, h]
      by_cases hc : (nodeText y).length > (nodeText x).length
      · rw [if_pos hc]
        right
        exact List.mem_cons_self _ _
      · rw [if_neg hc]
        left
        rfl
    · right
      rw [hform]
      exact List.mem_cons_of_mem _ h

theorem maxByTextLen_ge (x : Node) (xs : List Node) :
    ∀ y ∈ x :: xs, (nodeText y).length ≤ (nodeText (maxByTextLen x xs)).length := by
  induction xs generalizing x with
  | nil =>
    intro y hy
    rcases List.mem_cons.mp hy with rfl | hy2
    · exact Nat.le_refl _
    · cases hy2
  | cons z zs ih =>
    intro y hy
    have h1 : (nodeText x).length ≤
        (nodeText (if (nodeText z).length > (nodeText x).length then z else x)).length := by
      split_ifs with h
      · exact Nat.le_of_lt h
      · exact Nat.le_refl _
    have h2 : (nodeText z).length ≤
        (nodeText (if (nodeText z).length > (nodeText x).length then z else x)).length := by
      split_ifs with h
      · exact Nat.le_refl _
      · exact Nat.le_of_not_lt h
    have hstep := ih (if (nodeText z).length > (nodeText x).length then z else x)
    have hstep_le := hstep _ (List.mem_cons_self _ _)
    rcases List.mem_cons.mp hy with rfl | hy2
    · exact Nat.le_trans h1 hstep_le
    · rcases List.mem_cons.mp hy2 with rfl | hy3
      · exact Nat.le_trans h2 hstep_le
      · exact hstep _ (List.mem_cons_of_mem _ hy3)

theorem find_main_from_some (soup : List Node) :
    ∀ (sels : List Selector) (m : Node), find_main_from soup sels = some m →
    ∃ k, ∃ hk : k < sels.length,
      m ∈ findAllForest (selectorMatches (sels.get ⟨k, hk⟩)) soup ∧
      (nodeText m).length > 100 ∧
      (∀ m2 ∈ findAllForest (selectorMatches (sels.get ⟨k, hk⟩)) soup,
        (nodeText m2).length ≤ (nodeText m).length) ∧
      (∀ j, ∀ hj : j < sels.length, j < k →
        ∀ m2 ∈ findAllForest (selectorMatches (sels.get ⟨j, hj⟩)) soup,
          (nodeText m2).length ≤ 100) := by
  intro sels
  induction sels with
  | nil => intro m h; simp [find_main_from] at h
  | cons sel rest ih =>
    intro m h
    rw [find_main_from] at h
    cases hfa : findAllForest (selectorMatches sel) soup with
    | nil =>
      rw [hfa] at h
      dsimp only at h
      rcases ih m h with ⟨k, hk, hmem, hbig, hmax, hearlier⟩
      refine ⟨k + 1, Nat.succ_lt_succ hk, hmem, hbig, hmax, ?_⟩
      intro j hj hjk m2 hm2
      cases j with
      | zero =>
        simp only [List.get] at hm2
        rw [hfa] at hm2
        cases hm2
      | succ j' =>
        exact hearlier j' (Nat.lt_of_succ_lt_succ hj) (Nat.lt_of_succ_lt_succ hjk) m2 hm2
    | cons e es =>
      rw [hfa] at h
      dsimp only at h
      by_cases hbig : (nodeText (maxByTextLen e es)).length > 100
      · rw [if_pos hbig] at h
        cases h
        refine ⟨0, Nat.succ_pos _, ?_, hbig, ?_, ?_⟩
        · simp only [List.get]
          rw [hfa]
          rcases maxByTextLen_mem e es with h | h
          · rw [h]; exact List.mem_cons_self _ _
          · exact List.mem_cons_of_mem _ h
        · intro m2 hm2
          simp only [List.get] at hm2
          rw [hfa] at hm2
          exact maxByTextLen_ge e es m2 hm2
        · intro j hj hjk m2 hm2
          cases hjk
      · rw [if_neg hbig] at h
        rcases ih m h with ⟨k, hk, hmem, hbig2, hmax, hearlier⟩
        refine ⟨k + 1, Nat.succ_lt_succ hk, hmem, hbig2, hmax, ?_⟩
        intro j hj hjk m2 hm2
        cases j with
        | zero =>
          simp only [List.get] at hm2
          rw [hfa] at hm2
          exact Nat.le_trans (maxByTextLen_ge e es m2 hm2) (Nat.le_of_not_lt hbig)
        | succ j' =>
          exact hearlier j' (Nat.lt_of_succ_lt_succ hj) (Nat.lt_of_succ_lt_succ hjk) m2 hm2

theorem find_main_from_none (soup : List Node) :
    ∀ sels, find_main_from soup sels = none →
    ∀ sel ∈ sels, ∀ m2 ∈ findAllForest (selectorMatches sel) soup,
      (nodeText m2).length ≤ 100 := by
  intro sels
  induction sels with
  | nil => intro _ sel hsel; cases hsel
  | cons s rest ih =>
    intro h sel hsel m2 hm2
    rw [find_main_from] at h
    cases hfa : findAllForest (selectorMatches s) soup with
    | nil =>
      rw [hfa] at h
      dsimp only at h
      rcases List.mem_cons.mp hsel with rfl | hsel2
      · rw [hfa] at hm2; cases hm2
      · exact ih h sel hsel2 m2 hm2
    | cons e es =>
      rw [hfa] at h
      dsimp only at h
      by_cases hbig : (nodeText (maxByTextLen e es)).length > 100
      · rw [if_pos hbig] at h; cases h
      · rw [if_neg hbig] at h
        rcases List.mem_cons.mp hsel with rfl | hsel2
        · rw [hfa] at hm2
          exact Nat.le_trans (maxByTextLen_ge e es m2 hm2) (Nat.le_of_not_lt hbig)
        · exact ih h sel hsel2 m2 hm2

/-- C7: the Main-Content Locator walks the fixed ordered selector list;
it returns, for the first selector owning a match whose text length
exceeds 100 characters, a maximal-text match of that selector (every
earlier selector has only matches of text length at most 100); and when
no selector qualifies, every selector's matches are at most 100 characters
and the pipeline falls back to the first `body` element, or to the whole
tree when no `body` exists. -/
theorem main_content_locator_spec (soup : List Node) :
    (∀ m, extract_main_content soup = some m →
      locate_main_content soup = [m] ∧
      ∃ k, ∃ hk : k < main_selectors.length,
        m ∈ findAllForest (selectorMatches (main_selectors.get ⟨k, hk⟩)) soup ∧
        (nodeText m).length > 100 ∧
        (∀ m2 ∈ findAllForest (selectorMatches (main_selectors.get ⟨k, hk⟩)) soup,
          (nodeText m2).length ≤ (nodeText m).length) ∧
        (∀ j, ∀ hj : j < main_selectors.length, j < k →
          ∀ m2 ∈ findAllForest (selectorMatches (main_selectors.get ⟨j, hj⟩)) soup,
            (nodeText m2).length ≤ 100)) ∧
    (extract_main_content soup = none →
      (∀ sel ∈ main_selectors, ∀ m2 ∈ findAllForest (selectorMatches sel) soup,
        (nodeText m2).length ≤ 100) ∧
      locate_main_content soup =
        (match (findAllForest (isTagNode "body") soup).head? with
         | some b => [b]
         | none => soup)) := by
  constructor
  · intro m h
    refine ⟨?_, find_main_from_some soup main_selectors m h⟩
    unfold locate_main_content
    rw [h]
  · intro h
    refine ⟨find_main_from_none soup main_selectors h, ?_⟩
    unfold locate_main_content
    rw [h]

/-- Witness for C7: the spec's scenario — a `nav` plus an `article` whose
text exceeds the 100-character threshold; the locator picks the
`article`. -/
theorem main_content_locator_spec_witness :
    locate_main_content
      [Node.elem "nav" [("class", "site-nav")] [.text "ignore me"],
       Node.elem "article" [] [.text (String.mk (List.replicate 120 'a'))]] =
      [Node.elem "article" [] [.text (String.mk (List.replicate 120 'a'))]] :=
  ((main_content_locator_spec
      [Node.elem "nav" [("class", "site-nav")] [.text "ignore me"],
       Node.elem "article" [] [.text (String.mk (List.replicate 120 'a'))]]).1
    (Node.elem "article" [] [.text (String.mk (List.replicate 120 'a'))]) rfl).1

/-! ## C5 — markdown table shape -/

theorem forestList_map_mkTh (H : List String) :
    forestList (H.map mkTh) = H.flatMap (fun s => [mkTh s, Node.text s]) := by
  induction H with
  | nil => rfl
  | cons s rest ih =>
    simp only [List.map_cons, List.flatMap_cons, forestList, ← ih]
    rfl

theorem forestList_map_mkTd (r : List String) :
    forestList (r.map mkTd) = r.flatMap (fun s => [mkTd s, Node.text s]) := by
  induction r with
  | nil => rfl
  | cons s rest ih =>
    simp only [List.map_cons, List.flatMap_cons, forestList, ← ih]
    rfl

theorem forestList_map_mkBodyTr (B : List (List String)) :
    forestList (B.map mkBodyTr) =
      B.flatMap (fun r => mkBodyTr r :: r.flatMap (fun s => [mkTd s, Node.text s])) := by
  induction B with
  | nil => rfl
  | cons r rest ih =>
    simp only [List.map_cons, List.flatMap_cons, forestList]
    rw [ih]
    simp only [mkBodyTr, nodeList]
    rw [forestList_map_mkTd]

theorem descendants_mkTable (H : List String) (B : List (List String)) :
    descendants (mkTable H B) =
      Node.elem "thead" [] [mkHeadTr H] :: mkHeadTr H ::
        (H.flatMap (fun s => [mkTh s, Node.text s]) ++
          (Node.elem "tbody" [] (B.map mkBodyTr) ::
            B.flatMap (fun r => mkBodyTr r :: r.flatMap (fun s => [mkTd s, Node.text s])))) := by
  show forestList [Node.elem "thead" [] [mkHeadTr H], Node.elem "tbody" [] (B.map mkBodyTr)] = _
  simp only [forestList, nodeList, mkHeadTr]
  rw [forestList_map_mkTh, forestList_map_mkBodyTr]
  simp

theorem filter_th_cells (H : List String) (p : Node → Bool)
    (h1 : ∀ s, p (mkTh s) = false) (h2 : ∀ s, p (Node.text s) = false) :
    (H.flatMap (fun s => [mkTh s, Node.text s])).filter p = [] := by
  rw [List.filter_flatMap]
  refine List.flatMap_eq_nil_iff.mpr ?_
  intro s _
  simp [List.filter, h1, h2]

theorem filter_td_cells (r : List String) (p : Node → Bool)
    (h1 : ∀ s, p (mkTd s) = false) (h2 : ∀ s, p (Node.text s) = false) :
    (r.flatMap (fun s => [mkTd s, Node.text s])).filter p = [] := by
  rw [List.filter_flatMap]
  refine List.flatMap_eq_nil_iff.mpr ?_
  intro s _
  simp [List.filter, h1, h2]

theorem filter_body_forest (B : List (List String)) (p : Node → Bool)
    (h1 : ∀ r, p (mkBodyTr r) = false) (h2 : ∀ s, p (mkTd s) = false)
    (h3 : ∀ s, p (Node.text s) = false) :
    (B.flatMap (fun r => mkBodyTr r :: r.flatMap (fun s => [mkTd s, Node.text s]))).filter p
      = [] := by
  rw [List.filter_flatMap]
  refine List.flatMap_eq_nil_iff.mpr ?_
  intro r _
  rw [List.filter_cons_of_neg (by simp [h1])]
  exact filter_td_cells r p h2 h3

theorem c5_findIn_thead (H : List String) (B : List (List String)) :
    findIn (mkTable H B) (isTagNode "thead") = some (Node.elem "thead" [] [mkHeadTr H]) := by
  unfold findIn findAllIn
  rw [descendants_mkTable]
  rw [List.filter_cons_of_pos (by simp [isTagNode])]
  simp

theorem c5_findIn_tbody (H : List String) (B : List (List String)) :
    findIn (mkTable H B) (isTagNode "tbody") =
      some (Node.elem "tbody" [] (B.map mkBodyTr)) := by
  unfold findIn findAllIn
  rw [descendants_mkTable]
  rw [List.filter_cons_of_neg (by simp [isTagNode]),
      List.filter_cons_of_neg (by simp [mkHeadTr, isTagNode]),
      List.filter_append,
      filter_th_cells H _ (by intro s; simp [mkTh, isTagNode]) (by intro s; simp [isTagNode]),
      List.filter_cons_of_pos (by simp [isTagNode])]
  simp

theorem c5_theadTrs (H : List String) :
    findAllIn (Node.elem "thead" [] [mkHeadTr H]) (isTagNode "tr") = [mkHeadTr H] := by
  unfold findAllIn descendants
  show (forestList [mkHeadTr H]).filter (isTagNode "tr") = _
  simp only [forestList, nodeList, mkHeadTr]
  rw [forestList_map_mkTh, List.append_nil]
  rw [List.filter_cons_of_pos (by simp [isTagNode])]
  rw [filter_th_cells H _ (by intro s; simp [mkTh, isTagNode]) (by intro s; simp [isTagNode])]

theorem c5_headers (H : List String) :
    findAllIn (mkHeadTr H) (fun n => isTagNode "th" n || isTagNode "td" n) = H.map mkTh := by
  unfold findAllIn descendants mkHeadTr
  show (forestList (H.map mkTh)).filter _ = _
  rw [forestList_map_mkTh, List.filter_flatMap]
  induction H with
  | nil => rfl
  | cons s rest ih =>
    simp only [List.flatMap_cons, List.map_cons]
    rw [List.filter_cons_of_pos (by simp [mkTh, isTagNode]),
        List.filter_cons_of_neg (by simp [isTagNode])]
    simp only [List.filter_nil]
    rw [ih]
    rfl

theorem c5_bodyTrs (B : List (List String)) :
    findAllIn (Node.elem "tbody" [] (B.map mkBodyTr)) (isTagNode "tr") = B.map mkBodyTr := by
  unfold findAllIn descendants
  show (forestList (B.map mkBodyTr)).filter _ = _
  rw [forestList_map_mkBodyTr, List.filter_flatMap]
  induction B with
  | nil => rfl
  | cons r rest ih =>
    simp only [List.flatMap_cons, List.map_cons]
    rw [List.filter_cons_of_pos (by simp [mkBodyTr, isTagNode])]
    rw [filter_td_cells r _ (by intro s; simp [mkTd, isTagNode]) (by intro s; simp [isTagNode])]
    rw [ih]
    rfl

theorem c5_cells (r : List String) :
    findAllIn (mkBodyTr r) (fun n => isTagNode "td" n || isTagNode "th" n) = r.map mkTd := by
  unfold findAllIn descendants mkBodyTr
  show (forestList (r.map mkTd)).filter _ = _
  rw [forestList_map_mkTd, List.filter_flatMap]
  induction r with
  | nil => rfl
  | cons s rest ih =>
    simp only [List.flatMap_cons, List.map_cons]
    rw [List.filter_cons_of_pos (by simp [mkTd, isTagNode]),
        List.filter_cons_of_neg (by simp [isTagNode])]
    simp only [List.filter_nil]
    rw [ih]
    rfl

theorem c5_headtr_ne_bodytr (H : List String) (r : List String) (hH : H ≠ []) :
    nodeBEq (mkHeadTr H) (mkBodyTr r) = false := by
  cases H with
  | nil => cases hH rfl
  | cons h H2 =>
    cases r with
    | nil => simp [mkHeadTr, mkBodyTr, nodeBEq, forestBEq]
    | cons c r2 => simp [mkHeadTr, mkBodyTr, nodeBEq, forestBEq, mkTh, mkTd]

theorem lineFree_append (a b : String) :
    lineFree (a ++ b) = (lineFree a && lineFree b) := by
  simp [lineFree, List.contains, String.toList, Bool.not_or]

theorem lineFree_strJoinBar (cells : List String) (h : ∀ c ∈ cells, lineFree c = true) :
    lineFree (strJoin " | " cells) = true := by
  induction cells with
  | nil => decide
  | cons c cs ih =>
    cases cs with
    | nil => exact h c (List.mem_cons_self _ _)
    | cons d ds =>
      show lineFree (c ++ " | " ++ strJoin " | " (d :: ds)) = true
      rw [lineFree_append, lineFree_append]
      rw [h c (List.mem_cons_self _ _)]
      rw [ih (fun x hx => h x (List.mem_cons_of_mem _ hx))]
      decide

theorem lineFree_mkRowLine (cells : List String) (h : ∀ c ∈ cells, lineFree c = true) :
    lineFree (mkRowLine cells) = true := by
  unfold mkRowLine
  rw [lineFree_append, lineFree_append, lineFree_strJoinBar cells h]
  decide

theorem count_nl_zero_of_lineFree (r : String) (h : lineFree r = true) :
    r.toList.count '\n' = 0 := by
  simp only [lineFree, Bool.not_eq_true', List.contains, List.elem_eq_mem,
    decide_eq_false_iff_not] at h
  exact List.count_eq_zero.mpr h

theorem count_nl_strJoin (rows : List String) (hne : rows ≠ [])
    (h : ∀ r ∈ rows, lineFree r = true) :
    ((strJoin "\n" rows).toList).count '\n' = rows.length - 1 := by
  induction rows with
  | nil => cases hne rfl
  | cons x xs ih =>
    cases xs with
    | nil =>
      show (x.toList).count '\n' = 0
      exact count_nl_zero_of_lineFree x (h x (List.mem_cons_self _ _))
    | cons y ys =>
      show ((x ++ "\n" ++ strJoin "\n" (y :: ys)).toList).count '\n' = _
      have hx := count_nl_zero_of_lineFree x (h x (List.mem_cons_self _ _))
      have hrest := ih (by simp) (fun r hr => h r (List.mem_cons_of_mem _ hr))
      show ((x ++ "\n" ++ strJoin "\n" (y :: ys)).data).count '\n' = _
      rw [String.data_append, String.data_append, List.count_append, List.count_append]
      have hone : (("\n" : String).data).count '\n' = 1 := by decide
      have hx2 : List.count '\n' x.data = 0 := hx
      have hrest2 : List.count '\n' (strJoin "\n" (y :: ys)).data = (y :: ys).length - 1 := hrest
      rw [hx2, hone, hrest2]
      simp only [List.length_cons]
      omega

theorem countLines_join_rows (rows : List String) (hne : rows ≠ [])
    (h : ∀ r ∈ rows, lineFree r = true) :
    countLines (strJoin "\n" rows ++ "\n") = rows.length := by
  unfold countLines countLinesL
  have hdata : (strJoin "\n" rows ++ "\n").toList = (strJoin "\n" rows).data ++ ['\n'] :=
    String.data_append _ _
  rw [hdata]
  rw [if_neg (by simp)]
  rw [List.getLast?_concat]
  rw [List.count_append]
  have hc := count_nl_strJoin rows hne h
  have hc2 : List.count '\n' (strJoin "\n" rows).data = rows.length - 1 := hc
  rw [hc2]
  have hone : List.count '\n' ['\n'] = 1 := by decide
  rw [hone]
  rw [if_pos rfl]
  have hpos : 0 < rows.length := List.length_pos.mpr hne
  omega

theorem c5_headerRow (H : List String) :
    findIn (Node.elem "thead" [] [mkHeadTr H]) (isTagNode "tr") = some (mkHeadTr H) := by
  unfold findIn
  rw [c5_theadTrs]
  rfl

theorem nodeText_mkTh (s : String) : nodeText (mkTh s) = s := by
  simp [mkTh, nodeText, forestText]

theorem nodeText_mkTd (s : String) : nodeText (mkTd s) = s := by
  simp [mkTd, nodeText, forestText]

theorem filterMap_eq_map_of_some {α β : Type} {l : List α} {f : α → Option β} {g : α → β}
    (h : ∀ a ∈ l, f a = some (g a)) : l.filterMap f = l.map g := by
  induction l with
  | nil => rfl
  | cons a as ih =>
    rw [List.filterMap_cons, h a (List.mem_cons_self _ _), List.map_cons,
      ih (fun b hb => h b (List.mem_cons_of_mem _ hb))]

theorem map_sep_const (H : List String) :
    List.map ((fun _ => "---") ∘ (fun c => pyStrip (nodeText c)) ∘ mkTh) H =
      H.map (fun _ => "---") := by
  induction H with
  | nil => rfl
  | cons a as ih => simp only [List.map_cons, Function.comp_apply, ih]

theorem convert_mkTable (H : List String) (B : List (List String)) (hH : H ≠ [])
    (hB : ∀ r ∈ B, r ≠ []) :
    convert_table_to_markdown (mkTable H B) =
      strJoin "\n" (mkRowLine (H.map (fun s => pyStrip s)) ::
        mkRowLine (H.map (fun _ => "---")) ::
        B.map (fun r => mkRowLine (r.map (fun s => pyStrip s)))) ++ "\n" := by
  have hne : ∀ r, nodeBEq (mkHeadTr H) (mkBodyTr r) = false :=
    fun r => c5_headtr_ne_bodytr H r hH
  simp only [convert_table_to_markdown, c5_findIn_thead, c5_findIn_tbody, c5_headerRow,
    c5_theadTrs, c5_bodyTrs, c5_headers, c5_cells, Option.isSome_some, List.any_cons,
    List.any_nil, hne, Bool.or_false, List.map_map, List.filterMap_map]
  have hhdr : List.map ((fun c => pyStrip (nodeText c)) ∘ mkTh) H =
      H.map (fun s => pyStrip s) := by
    simp [Function.comp, nodeText_mkTh]
  rw [hhdr, map_sep_const]
  rw [if_pos (by simp [hH] : H.map (fun s => pyStrip s) ≠ [])]
  congr 1
  congr 1
  simp only [List.cons_append, List.nil_append]
  congr 1
  congr 1
  apply filterMap_eq_map_of_some
  intro r hr
  have hrne := hB r hr
  simp only [Function.comp]
  rw [if_neg (by simp [hne r])]
  rw [c5_cells, List.map_map]
  have hcells : List.map ((fun c => pyStrip (nodeText c)) ∘ mkTd) r =
      r.map (fun s => pyStrip s) := by
    simp [Function.comp, nodeText_mkTd]
  rw [hcells]
  rw [if_pos (by simp [hrne] : r.map (fun s => pyStrip s) ≠ [])]

/-- C5 (amended): for a well-formed table (modelled as the canonical
family `mkTable`: a `thead` holding one header row of N ≥ 1 `th` cells and
a `tbody` of M non-empty rows, all cell texts newline-free after
trimming), with tables enabled, the Markdown output is the pipe-delimited
header line, a separator line of `---` cells matching the header's column
count, then the M body rows as pipe-delimited lines — M+2 lines in total,
not N+2 (see the counterexample). -/
theorem table_markdown_shape (H : List String) (B : List (List String))
    (hH : H ≠ []) (hB : ∀ r ∈ B, r ≠ [])
    (hHl : ∀ s ∈ H, lineFree (pyStrip s) = true)
    (hBl : ∀ r ∈ B, ∀ s ∈ r, lineFree (pyStrip s) = true) :
    convert_table_to_markdown (mkTable H B) =
      strJoin "\n" (mkRowLine (H.map (fun s => pyStrip s)) ::
        mkRowLine (H.map (fun _ => "---")) ::
        B.map (fun r => mkRowLine (r.map (fun s => pyStrip s)))) ++ "\n" ∧
    countLines (convert_table_to_markdown (mkTable H B)) = B.length + 2 := by
  have hconv := convert_mkTable H B hH hB
  refine ⟨hconv, ?_⟩
  rw [hconv]
  have hall : ∀ r ∈ (mkRowLine (H.map (fun s => pyStrip s)) ::
      mkRowLine (H.map (fun _ => "---")) ::
      B.map (fun r => mkRowLine (r.map (fun s => pyStrip s)))), lineFree r = true := by
    intro r hr
    rcases List.mem_cons.mp hr with rfl | hr2
    · refine lineFree_mkRowLine _ ?_
      intro c hc
      rcases List.mem_map.mp hc with ⟨s, hs, rfl⟩
      exact hHl s hs
    · rcases List.mem_cons.mp hr2 with rfl | hr3
      · refine lineFree_mkRowLine _ ?_
        intro c hc
        rcases List.mem_map.mp hc with ⟨s, hs, rfl⟩
        decide
      · rcases List.mem_map.mp hr3 with ⟨row, hrow, rfl⟩
        refine lineFree_mkRowLine _ ?_
        intro c hc
        rcases List.mem_map.mp hc with ⟨s, hs, rfl⟩
        exact hBl row hrow s hs
  rw [countLines_join_rows _ (by simp) hall]
  simp

/-- Witness for C5 at a concrete 2-column, 2-row table: 4 = M+2 lines. -/
theorem table_markdown_shape_witness :
    countLines (convert_table_to_markdown (mkTable ["A", "B"] [["x", "y"], ["z", "w"]])) =
      2 + 2 :=
  (table_markdown_shape ["A", "B"] [["x", "y"], ["z", "w"]]
    (by decide) (by decide) (by decide) (by decide)).2

/-- C5 counterexample: a table with N = 2 header cells and M = 1 body row
renders to 3 lines (header, separator, one body row), not N+2 = 4. -/
theorem table_lines_not_header_count :
    countLines (convert_table_to_markdown (mkTable ["A", "B"] [["x", "y"]])) = 3 ∧
    ¬ (3 = (["A", "B"] : List String).length + 2) := by
  constructor
  · decide
  · decide

/-! ## C6 — href/src resolution in the markdown renderer -/

theorem splitAtChar?_append (c : Char) (pre post : List Char) (h : c ∉ pre) :
    splitAtChar? c (pre ++ c :: post) = some (pre, post) := by
  induction pre with
  | nil => simp [splitAtChar?]
  | cons a as ih =>
    have hne : ¬ (a = c) := fun he => h (he ▸ List.mem_cons_self _ _)
    simp only [List.cons_append, splitAtChar?, List.append_eq]
    rw [if_neg hne]
    rw [ih (fun hm => h (List.mem_cons_of_mem _ hm))]

theorem splitScheme_of_valid (pre post : List Char) (h1 : ':' ∉ pre) (h2 : pre ≠ [])
    (h3 : (pre.headD ' ').isAlpha = true) (h4 : pre.all isSchemeChar = true) :
    splitScheme (pre ++ ':' :: post) = (pre, post) := by
  unfold splitScheme
  rw [splitAtChar?_append ':' pre post h1]
  dsimp only
  rw [if_pos ⟨h2, h3, h4⟩]

theorem strStartsWith_toList {r pre : String} (h : strStartsWith r pre = true) :
    ∃ t, r.toList = pre.toList ++ t := by
  obtain ⟨t, ht⟩ := List.isPrefixOf_iff_prefix.mp h
  exact ⟨t, ht.symm⟩

theorem urlparse_scheme_of_word (w : String) (t : List Char)
    (h1 : ':' ∉ w.toList) (h2 : w.toList ≠ []) (h3 : ((w.toList).headD ' ').isAlpha = true)
    (h4 : (w.toList).all isSchemeChar = true)
    (h5 : String.mk ((w.toList).map Char.toLower) = w) :
    (urlparse (String.mk (w.toList ++ ':' :: t))).scheme = w := by
  unfold urlparse
  dsimp only
  rw [show (String.mk (w.toList ++ ':' :: t)).toList = w.toList ++ ':' :: t from rfl]
  rw [splitScheme_of_valid w.toList t h1 h2 h3 h4]
  exact h5

theorem urlparse_netloc_chars (url : String) :
    ∀ c ∈ (urlparse url).netloc.toList, netlocEnd c = false := by
  intro c hc
  unfold urlparse at hc
  dsimp only at hc
  revert hc
  generalize (splitScheme url.toList).2 = rest
  intro hc
  unfold splitNetloc at hc
  split at hc
  · have hc2 : c ∈ List.takeWhile (fun c => !(netlocEnd c)) _ := hc
    have := List.mem_takeWhile_imp hc2
    simpa using this
  · simp at hc

theorem takeWhile_nil_of_headBad (l : List Char)
    (h : l = [] ∨ ∃ c cs, l = c :: cs ∧ netlocEnd c = true) :
    l.takeWhile (fun c => !(netlocEnd c)) = [] := by
  rcases h with rfl | ⟨c, cs, rfl, hc⟩
  · rfl
  · exact List.takeWhile_cons_of_neg (by simp [hc])

theorem parse_at_form (s nl : String) (rest : List Char)
    (hs : s = "http" ∨ s = "https")
    (hgood : ∀ c ∈ nl.toList, netlocEnd c = false)
    (hrest : rest = [] ∨ ∃ c cs, rest = c :: cs ∧ netlocEnd c = true) :
    (urlparse (String.mk (s.toList ++ ':' :: ('/' :: '/' :: (nl.toList ++ rest))))).scheme = s ∧
    (urlparse (String.mk (s.toList ++ ':' :: ('/' :: '/' :: (nl.toList ++ rest))))).netloc = nl := by
  constructor
  · apply urlparse_scheme_of_word s ('/' :: '/' :: (nl.toList ++ rest)) <;>
      (rcases hs with rfl | rfl <;> decide)
  · unfold urlparse
    dsimp only
    rw [show (String.mk (s.toList ++ ':' :: ('/' :: '/' :: (nl.toList ++ rest)))).toList =
      s.toList ++ ':' :: ('/' :: '/' :: (nl.toList ++ rest)) from rfl]
    rw [splitScheme_of_valid s.toList ('/' :: '/' :: (nl.toList ++ rest))
      (by rcases hs with rfl | rfl <;> decide) (by rcases hs with rfl | rfl <;> decide)
      (by rcases hs with rfl | rfl <;> decide) (by rcases hs with rfl | rfl <;> decide)]
    rw [show splitNetloc ('/' :: '/' :: (nl.toList ++ rest)) =
      (List.takeWhile (fun c => !(netlocEnd c)) (nl.toList ++ rest),
       List.dropWhile (fun c => !(netlocEnd c)) (nl.toList ++ rest)) from rfl]
    dsimp only
    rw [List.takeWhile_append_of_pos (by intro a ha; simp [hgood a ha])]
    rw [takeWhile_nil_of_headBad rest hrest]
    rw [List.append_nil]
    rfl

theorem urlparse_unsplit_http (s nl p q f : String)
    (hs : s = "http" ∨ s = "https") (hnl : nl ≠ "")
    (hgood : ∀ c ∈ nl.toList, netlocEnd c = false) :
    (urlparse (urlunsplit ⟨s, nl, p, q, f⟩)).scheme = s ∧
    (urlparse (urlunsplit ⟨s, nl, p, q, f⟩)).netloc = nl := by
  have hsne : s ≠ "" := by rcases hs with rfl | rfl <;> decide
  have hform : urlunsplit ⟨s, nl, p, q, f⟩ =
      String.mk (s.toList ++ ':' :: ('/' :: '/' :: (nl.toList ++
        (((if p ≠ "" ∧ ¬ strStartsWith p "/" then "/" ++ p else p) ++
          ((if q ≠ "" then "?" ++ q else "") ++
            (if f ≠ "" then "#" ++ f else ""))).toList)))) := by
    unfold urlunsplit
    dsimp only
    rw [if_pos (Or.inl hnl), if_pos hsne]
    apply String.ext
    by_cases hq : q ≠ "" <;> by_cases hf : f ≠ "" <;>
      simp [hq, hf, String.data_append, List.append_assoc]
  rw [hform]
  apply parse_at_form s nl _ hs hgood
  by_cases hp : p ≠ "" ∧ ¬ strStartsWith p "/"
  · right
    refine ⟨'/', (p.toList ++ ((if q ≠ "" then "?" ++ q else "") ++
      (if f ≠ "" then "#" ++ f else "")).toList), ?_, by decide⟩
    rw [if_pos hp]
    simp [String.data_append]
  · rw [if_neg hp]
    by_cases hpe : p = ""
    · subst hpe
      by_cases hq : q ≠ ""
      · right
        refine ⟨'?', (q.toList ++ (if f ≠ "" then "#" ++ f else "").toList), ?_, by decide⟩
        rw [if_pos hq]
        simp [String.data_append]
      · rw [if_neg hq]
        by_cases hf : f ≠ ""
        · right
          refine ⟨'#', f.toList, ?_, by decide⟩
          rw [if_pos hf]
          simp [String.data_append]
        · rw [if_neg hf]
          left
          rfl
    · have hsw : strStartsWith p "/" = true := by
        by_contra hc
        exact hp ⟨hpe, hc⟩
      obtain ⟨t, ht⟩ := strStartsWith_toList hsw
      right
      refine ⟨'/', (t ++ ((if q ≠ "" then "?" ++ q else "") ++
        (if f ≠ "" then "#" ++ f else "")).toList), ?_, by decide⟩
      have ht2 : p.data = '/' :: t := ht
      simp [String.data_append, ht2]

theorem urlparse_empty_scheme : (urlparse "").scheme = "" := rfl

theorem urljoin_scheme_mismatch (base url : String)
    (hb : base ≠ "") (hu : url ≠ "")
    (hnz : (urlparse url).scheme ≠ "")
    (hne : (urlparse url).scheme ≠ (urlparse base).scheme) :
    urljoin base url = url := by
  unfold urljoin
  rw [if_neg hb, if_neg hu]
  dsimp only
  rw [if_neg hnz]
  rw [if_pos (Or.inl hne)]

theorem urljoin_relative (base url : String)
    (hs : (urlparse base).scheme = "http" ∨ (urlparse base).scheme = "https")
    (hn : (urlparse base).netloc ≠ "")
    (hu0 : (urlparse url).scheme = "") :
    (urlparse (urljoin base url)).scheme = (urlparse base).scheme ∧
    (urlparse (urljoin base url)).netloc ≠ "" := by
  have hbne : base ≠ "" := by
    intro he
    rw [he, urlparse_empty_scheme] at hs
    rcases hs with h | h <;> exact absurd h (by decide)
  by_cases hue : url = ""
  · subst hue
    have hjoin : urljoin base "" = base := by
      unfold urljoin
      rw [if_neg hbne]
      simp
    rw [hjoin]
    exact ⟨rfl, hn⟩
  · unfold urljoin
    rw [if_neg hbne, if_neg hue]
    dsimp only
    rw [if_pos hu0]
    have hcont : uses_relative.contains (urlparse base).scheme = true := by
      rcases hs with h | h <;> rw [h] <;> decide
    rw [if_neg (by simp; simpa using hcont)]
    have hcont2 : uses_netloc.contains (urlparse base).scheme = true := by
      rcases hs with h | h <;> rw [h] <;> decide
    by_cases hun : (urlparse url).netloc ≠ ""
    · rw [if_pos ⟨hcont2, hun⟩]
      have hres := urlparse_unsplit_http (urlparse base).scheme (urlparse url).netloc
        (urlparse url).path (urlparse url).query (urlparse url).fragment hs hun
        (fun c hc => urlparse_netloc_chars url c hc)
      refine ⟨hres.1, ?_⟩
      rw [hres.2]
      exact hun
    · rw [if_neg (fun hand => hun hand.2)]
      rw [if_pos hcont2]
      by_cases hup : (urlparse url).path = ""
      · rw [if_pos hup]
        have hres := urlparse_unsplit_http (urlparse base).scheme (urlparse base).netloc
          (urlparse base).path
          (if (urlparse url).query = "" then (urlparse base).query else (urlparse url).query)
          (urlparse url).fragment hs hn
          (fun c hc => urlparse_netloc_chars base c hc)
        refine ⟨hres.1, ?_⟩
        rw [hres.2]
        exact hn
      · rw [if_neg hup]
        refine ⟨(urlparse_unsplit_http (urlparse base).scheme (urlparse base).netloc _ _ _
          hs hn (fun c hc => urlparse_netloc_chars base c hc)).1, ?_⟩
        rw [(urlparse_unsplit_http (urlparse base).scheme (urlparse base).netloc _ _ _
          hs hn (fun c hc => urlparse_netloc_chars base c hc)).2]
        exact hn

theorem strStartsWith_trans {r p1 p2 : String}
    (h : strStartsWith r p1 = true) (h2 : strStartsWith p1 p2 = true) :
    strStartsWith r p2 = true := by
  have a := List.isPrefixOf_iff_prefix.mp h
  have b := List.isPrefixOf_iff_prefix.mp h2
  exact List.isPrefixOf_iff_prefix.mpr (b.trans a)

theorem ne_empty_of_startsWith {r pre : String}
    (h : strStartsWith r pre = true) (hp : pre ≠ "") : r ≠ "" := by
  obtain ⟨t, ht⟩ := strStartsWith_toList h
  intro he
  subst he
  have h0 : pre.toList ++ t = [] := ht.symm
  rcases List.append_eq_nil.mp h0 with ⟨h1, _⟩
  exact hp (String.ext h1)

theorem urlparse_scheme_of_prefix (r w : String)
    (hsw : strStartsWith r (w ++ ":") = true)
    (h1 : ':' ∉ w.toList) (h2 : w.toList ≠ []) (h3 : ((w.toList).headD ' ').isAlpha = true)
    (h4 : (w.toList).all isSchemeChar = true)
    (h5 : String.mk ((w.toList).map Char.toLower) = w) :
    (urlparse r).scheme = w := by
  obtain ⟨t, ht⟩ := strStartsWith_toList hsw
  have hr : r = String.mk (w.toList ++ ':' :: t) := by
    apply String.ext
    have hwc : (w ++ ":").toList = w.toList ++ [':'] := String.data_append _ _
    rw [hwc] at ht
    rw [show (String.mk (w.toList ++ ':' :: t)).data = w.toList ++ ':' :: t from rfl]
    rw [List.append_assoc] at ht
    exact ht
  rw [hr]
  exact urlparse_scheme_of_word w t h1 h2 h3 h4 h5

theorem scheme_of_sw_http {r : String} (h : strStartsWith r "http://" = true) :
    (urlparse r).scheme = "http" := by
  have h2 := strStartsWith_trans h (by decide : strStartsWith "http://" "http:" = true)
  have h3 : ("http" : String) ++ ":" = "http:" := by decide
  exact urlparse_scheme_of_prefix r "http" (by rw [h3]; exact h2)
    (by decide) (by decide) (by decide) (by decide) (by decide)

theorem scheme_of_sw_https {r : String} (h : strStartsWith r "https://" = true) :
    (urlparse r).scheme = "https" := by
  have h2 := strStartsWith_trans h (by decide : strStartsWith "https://" "https:" = true)
  have h3 : ("https" : String) ++ ":" = "https:" := by decide
  exact urlparse_scheme_of_prefix r "https" (by rw [h3]; exact h2)
    (by decide) (by decide) (by decide) (by decide) (by decide)

theorem scheme_of_sw_mailto {r : String} (h : strStartsWith r "mailto:" = true) :
    (urlparse r).scheme = "mailto" := by
  have h3 : ("mailto" : String) ++ ":" = "mailto:" := by decide
  exact urlparse_scheme_of_prefix r "mailto" (by rw [h3]; exact h)
    (by decide) (by decide) (by decide) (by decide) (by decide)

theorem scheme_of_sw_tel {r : String} (h : strStartsWith r "tel:" = true) :
    (urlparse r).scheme = "tel" := by
  have h3 : ("tel" : String) ++ ":" = "tel:" := by decide
  exact urlparse_scheme_of_prefix r "tel" (by rw [h3]; exact h)
    (by decide) (by decide) (by decide) (by decide) (by decide)

theorem scheme_of_sw_data {r : String} (h : strStartsWith r "data:" = true) :
    (urlparse r).scheme = "data" := by
  have h3 : ("data" : String) ++ ":" = "data:" := by decide
  exact urlparse_scheme_of_prefix r "data" (by rw [h3]; exact h)
    (by decide) (by decide) (by decide) (by decide) (by decide)

/-- C6 (amended): with a base URL parsing as absolute http/https, a
relative href/src value (no scheme of its own) is resolved by `urljoin`
to an absolute URL carrying the base URL's scheme and a non-empty host;
values starting with the literal lowercase prefixes `http://`, `https://`
(absolute URLs), `mailto:`, `tel:` and `data:` pass through both the href
and the src handler unmodified.  An absolute URL written with a
non-lowercase scheme spelling is not covered by the pass-through list and
may be rewritten (see the counterexample). -/
theorem renderer_url_resolution (base r : String)
    (hs : (urlparse base).scheme = "http" ∨ (urlparse base).scheme = "https")
    (hn : (urlparse base).netloc ≠ "") :
    ((urlparse r).scheme = "" →
      ((urlparse (resolveHref base r)).scheme = (urlparse base).scheme ∧
       (urlparse (resolveHref base r)).netloc ≠ "" ∧
       (urlparse (resolveSrc base r)).scheme = (urlparse base).scheme ∧
       (urlparse (resolveSrc base r)).netloc ≠ "")) ∧
    (strStartsWith r "http://" = true → resolveHref base r = r ∧ resolveSrc base r = r) ∧
    (strStartsWith r "https://" = true → resolveHref base r = r ∧ resolveSrc base r = r) ∧
    (strStartsWith r "mailto:" = true → resolveHref base r = r ∧ resolveSrc base r = r) ∧
    (strStartsWith r "tel:" = true → resolveHref base r = r ∧ resolveSrc base r = r) ∧
    (strStartsWith r "data:" = true → resolveHref base r = r ∧ resolveSrc base r = r) := by
  have hbne : base ≠ "" := by
    intro he
    rw [he, urlparse_empty_scheme] at hs
    rcases hs with h | h <;> exact absurd h (by decide)
  refine ⟨?_, ?_, ?_, ?_, ?_, ?_⟩
  · intro hu0
    have hA : strStartsWith r "http://" = false := by
      cases hA0 : strStartsWith r "http://"
      · rfl
      · rw [scheme_of_sw_http hA0] at hu0
        exact absurd hu0 (by decide)
    have hB : strStartsWith r "https://" = false := by
      cases hB0 : strStartsWith r "https://"
      · rfl
      · rw [scheme_of_sw_https hB0] at hu0
        exact absurd hu0 (by decide)
    have hC : strStartsWith r "mailto:" = false := by
      cases hC0 : strStartsWith r "mailto:"
      · rfl
      · rw [scheme_of_sw_mailto hC0] at hu0
        exact absurd hu0 (by decide)
    have hD : strStartsWith r "tel:" = false := by
      cases hD0 : strStartsWith r "tel:"
      · rfl
      · rw [scheme_of_sw_tel hD0] at hu0
        exact absurd hu0 (by decide)
    have hE : strStartsWith r "data:" = false := by
      cases hE0 : strStartsWith r "data:"
      · rfl
      · rw [scheme_of_sw_data hE0] at hu0
        exact absurd hu0 (by decide)
    have hhref : resolveHref base r = urljoin base r := by
      unfold resolveHref
      rw [if_pos ⟨hbne, by simp [hA, hB, hC, hD]⟩]
    have hsrc : resolveSrc base r = urljoin base r := by
      unfold resolveSrc
      rw [if_pos ⟨hbne, by simp [hA, hB, hE]⟩]
    rw [hhref, hsrc]
    have hres := urljoin_relative base r hs hn hu0
    exact ⟨hres.1, hres.2, hres.1, hres.2⟩
  · intro h
    constructor
    · unfold resolveHref
      rw [if_neg (fun hc => hc.2 (Or.inl h))]
    · unfold resolveSrc
      rw [if_neg (fun hc => hc.2 (Or.inl h))]
  · intro h
    constructor
    · unfold resolveHref
      rw [if_neg (fun hc => hc.2 (Or.inr (Or.inl h)))]
    · unfold resolveSrc
      rw [if_neg (fun hc => hc.2 (Or.inr (Or.inl h)))]
  · intro h
    constructor
    · unfold resolveHref
      rw [if_neg (fun hc => hc.2 (Or.inr (Or.inr (Or.inl h))))]
    · unfold resolveSrc
      by_cases hc : base ≠ "" ∧ ¬ (strStartsWith r "http://" = true ∨
        strStartsWith r "https://" = true ∨ strStartsWith r "data:" = true)
      · rw [if_pos hc]
        apply urljoin_scheme_mismatch base r hbne (ne_empty_of_startsWith h (by decide))
        · rw [scheme_of_sw_mailto h]
          decide
        · rw [scheme_of_sw_mailto h]
          rcases hs with h2 | h2 <;> rw [h2] <;> decide
      · rw [if_neg hc]
  · intro h
    constructor
    · unfold resolveHref
      rw [if_neg (fun hc => hc.2 (Or.inr (Or.inr (Or.inr h))))]
    · unfold resolveSrc
      by_cases hc : base ≠ "" ∧ ¬ (strStartsWith r "http://" = true ∨
        strStartsWith r "https://" = true ∨ strStartsWith r "data:" = true)
      · rw [if_pos hc]
        apply urljoin_scheme_mismatch base r hbne (ne_empty_of_startsWith h (by decide))
        · rw [scheme_of_sw_tel h]
          decide
        · rw [scheme_of_sw_tel h]
          rcases hs with h2 | h2 <;> rw [h2] <;> decide
      · rw [if_neg hc]
  · intro h
    constructor
    · unfold resolveHref
      by_cases hc : base ≠ "" ∧ ¬ (strStartsWith r "http://" = true ∨
        strStartsWith r "https://" = true ∨ strStartsWith r "mailto:" = true ∨
        strStartsWith r "tel:" = true)
      · rw [if_pos hc]
        apply urljoin_scheme_mismatch base r hbne (ne_empty_of_startsWith h (by decide))
        · rw [scheme_of_sw_data h]
          decide
        · rw [scheme_of_sw_data h]
          rcases hs with h2 | h2 <;> rw [h2] <;> decide
      · rw [if_neg hc]
    · unfold resolveSrc
      rw [if_neg (fun hc => hc.2 (Or.inr (Or.inr h)))]

/-- Witness for C6: resolving the relative href `/x` against
`https://ex.com/page` yields an absolute URL with the base's scheme and a
non-empty host (the spec's example resolves to `https://ex.com/x`). -/
theorem renderer_url_resolution_witness :
    (urlparse (resolveHref "https://ex.com/page" "/x")).scheme = "https" ∧
    (urlparse (resolveHref "https://ex.com/page" "/x")).netloc ≠ "" ∧
    resolveHref "https://ex.com/page" "/x" = "https://ex.com/x" := by
  have h := ((renderer_url_resolution "https://ex.com/page" "/x"
    (by decide) (by decide)).1 (by decide))
  exact ⟨h.1, h.2.1, by decide⟩

/-- C6 counterexample: an absolute http URL spelled with an upper-case
scheme is not passed through unmodified — the case-sensitive
`startswith` check misses it and `urljoin` re-emits it with the scheme
lower-cased. -/
theorem href_uppercase_scheme_rewritten :
    resolveHref "http://e.com/" "HTTP://A.COM/x" = "http://A.COM/x" ∧
    ¬ ("http://A.COM/x" = "HTTP://A.COM/x") := by
  constructor
  · decide
  · decide
